import Mathlib

set_option maxRecDepth 4096

/-!
Verification development for the price-extraction core of the
`price-drop-notifier` repository (`src/backend/layers/utils/scraper_utils.py`).

The Python source is shallowly embedded: Python floats are modelled as exact
rationals (`ℚ`); all numeric literals appearing here are small decimals for
which IEEE doubles are exact enough that every comparison performed by the
source (`<`, `<=`, equality against `0` and `1_000_000`) agrees with the
rational model.  Fallible operations (regex search, `float()` conversion,
`json.loads`, per-block `try/except`) are modelled with `Option`.  The DOM is
an index-addressed node arena (each node stores tag, attributes, own text,
child indices and a parent index), mirroring how the source walks `.parent`
pointers and enumerates nodes in document order.
-/

namespace Scraper

/-! ## Python string helpers -/

/-- One whitespace test shared by `str.strip`, `str.split` and regex `\s`. -/
def isWs (c : Char) : Bool := c.isWhitespace

/-- Python `str.strip()` on a char list: drop whitespace from both ends. -/
def stripChars (l : List Char) : List Char :=
  ((l.dropWhile isWs).reverse.dropWhile isWs).reverse

/-- Python `str.strip()`. -/
def pyStrip (s : String) : String := String.mk (stripChars s.toList)

/-- Python `str.split()` (split on whitespace runs, dropping empty pieces). -/
def splitWsAux : List Char → List Char → List (List Char)
  | [], acc => if acc.isEmpty then [] else [acc.reverse]
  | c :: rest, acc =>
    if isWs c then
      if acc.isEmpty then splitWsAux rest []
      else acc.reverse :: splitWsAux rest []
    else splitWsAux rest (c :: acc)

/-- Python `" ".join(text.split())`: collapse all whitespace runs to single
spaces and trim the ends (line 94 of the source). -/
def normWs (s : String) : String :=
  String.intercalate " " ((splitWsAux s.toList []).map String.mk)

/-- Whether the second list starts with the first (`needle`, `hay`). -/
def seqStarts [DecidableEq α] : List α → List α → Bool
  | [], _ => true
  | _ :: _, [] => false
  | a :: as, b :: bs => a = b && seqStarts as bs

/-- Whether `needle` occurs contiguously inside `hay` (Python `in`). -/
def seqContains [DecidableEq α] (needle : List α) : List α → Bool
  | [] => seqStarts needle []
  | l@(_ :: rest) => seqStarts needle l || seqContains needle rest

/-- Python `needle in hay` on strings. -/
def strContains (hay needle : String) : Bool :=
  seqContains needle.toList hay.toList

/-- Python `s.startswith(pre)`. -/
def strStarts (s pre : String) : Bool :=
  seqStarts pre.toList s.toList

/-- Python `str.lower()` (ASCII case folding suffices for the inputs used by
the source: tag names, hints, currency symbols). -/
def strLower (s : String) : String := String.mk (s.toList.map Char.toLower)

/-! ## Python `float()` on the decimal strings this code produces

The source converts regex groups and JSON-number literals with `float(...)`
inside `try/except ValueError`.  The strings reaching it consist of an
optional sign, ASCII digits, at most one `.`, and an optional exponent; the
parser below accepts exactly those shapes and fails (like `float`) otherwise. -/

/-- Digits of a char list interpreted in base 10, or `none` on a non-digit or
an empty list. -/
def digitsToNat : List Char → Option Nat
  | [] => none
  | l => l.foldl (fun acc c =>
      acc.bind fun n => if c.isDigit then some (n * 10 + (c.toNat - '0'.toNat)) else none)
      (some 0)

/-- Parse `digits[.digits]` into an exact rational. -/
def parseUnsignedDec (l : List Char) : Option ℚ :=
  match l.splitOn '.' with
  | [intPart] => (digitsToNat intPart).map (fun n => (n : ℚ))
  | [intPart, fracPart] =>
    if intPart.isEmpty && fracPart.isEmpty then none
    else
      let ip : Option Nat := if intPart.isEmpty then some 0 else digitsToNat intPart
      let fp : Option Nat := if fracPart.isEmpty then some 0 else digitsToNat fracPart
      ip.bind fun i => fp.map fun f => (i : ℚ) + (f : ℚ) / ((10 : ℚ) ^ fracPart.length)
  | _ => none

/-- Python `float(s)` restricted to finite decimal/exponent literals. -/
def pyFloat (s : String) : Option ℚ :=
  let l := stripChars s.toList
  let (sign, l) : ℚ × List Char :=
    match l with
    | '-' :: rest => (-1, rest)
    | '+' :: rest => (1, rest)
    | _ => (1, l)
  let (mant, ex) : List Char × Option (List Char) :=
    match l.splitOn 'e' with
    | [m] =>
      (match m.splitOn 'E' with
       | [m'] => (m', none)
       | [m', e'] => (m', some e')
       | _ => ([], some []))
    | [m, e] => (m, some e)
    | _ => ([], some [])
  (parseUnsignedDec mant).bind fun q =>
    match ex with
    | none => some (sign * q)
    | some e =>
      let (esign, e) : Int × List Char :=
        match e with
        | '-' :: rest => (-1, rest)
        | '+' :: rest => (1, rest)
        | _ => (1, e)
      (digitsToNat e).map fun n => sign * q * (10 : ℚ) ^ (esign * n)

/-! ## The price regexes (`_PRICE_PATTERNS`, source lines 79–86)

Each pattern has the shape  `lit? \s* (num) (\s* USD)?`  where `num` is
`\d{1,6} (sep₁ \d{3})* (sep₂ \d{2})?`.  The matcher below reproduces Python
`re.search` semantics for these patterns: scan start positions left to right
and, at each position, enumerate the quantifier choices in backtracking
preference order (digit count descending, then thousands-group count
descending, then decimal group present before absent). -/

structure NumSpec where
  thSeps : List Char
  decSeps : List Char
  decRequired : Bool
  deriving Repr, DecidableEq

structure PricePattern where
  lit : Option (List Char)
  num : NumSpec
  usdAfter : Bool
  deriving Repr, DecidableEq

/-- Length of the leading ASCII-digit run. -/
def digitRun : List Char → Nat
  | [] => 0
  | c :: rest => if c.isDigit then digitRun rest + 1 else 0

/-- Consume one `sep \d{3}` group. -/
def tryRep (seps : List Char) : List Char → Option (List Char × List Char)
  | s :: d1 :: d2 :: d3 :: rest =>
    if seps.contains s && d1.isDigit && d2.isDigit && d3.isDigit then
      some ([s, d1, d2, d3], rest)
    else none
  | _ => none

/-- Consume exactly `r` thousands groups. -/
def consumeReps (seps : List Char) : Nat → List Char → Option (List Char × List Char)
  | 0, l => some ([], l)
  | r + 1, l =>
    (tryRep seps l).bind fun (c, rest) =>
      (consumeReps seps r rest).map fun (cs, rest') => (c ++ cs, rest')

/-- Consume one `sep \d{2}` decimal group. -/
def tryDec (seps : List Char) : List Char → Option (List Char × List Char)
  | s :: d1 :: d2 :: rest =>
    if seps.contains s && d1.isDigit && d2.isDigit then some ([s, d1, d2], rest)
    else none
  | _ => none

/-- All matches of the numeric core at this exact position, as
`(group, rest)` pairs in regex backtracking preference order. -/
def numMatches (sp : NumSpec) (l : List Char) : List (List Char × List Char) :=
  let run := min 6 (digitRun l)
  ((List.range run).reverse.map (· + 1)).flatMap fun k =>
    let ds := l.take k
    let rest1 := l.drop k
    (((List.range (rest1.length + 1)).reverse).filterMap
        (fun r => consumeReps sp.thSeps r rest1)).flatMap fun (cs, rest2) =>
      let withDec :=
        match tryDec sp.decSeps rest2 with
        | some (dc, rest3) => [(ds ++ cs ++ dc, rest3)]
        | none => []
      let withoutDec := if sp.decRequired then [] else [(ds ++ cs, rest2)]
      withDec ++ withoutDec

/-- Try the whole pattern anchored at this position; `some group` on success. -/
def matchAt (p : PricePattern) (l : List Char) : Option (List Char) :=
  let afterLit : Option (List Char) :=
    match p.lit with
    | some lit => if seqStarts lit l then some ((l.drop lit.length).dropWhile isWs) else none
    | none => some l
  afterLit.bind fun l1 =>
    ((numMatches p.num l1).find? fun (_, rest) =>
        if p.usdAfter then seqStarts ['U', 'S', 'D'] (rest.dropWhile isWs) else true).map
      Prod.fst

/-- `re.search`: earliest start position wins. -/
def searchPat (p : PricePattern) : List Char → Option (List Char)
  | [] => none
  | l@(_ :: rest) =>
    match matchAt p l with
    | some g => some g
    | none => searchPat p rest

/-- The six patterns of `_PRICE_PATTERNS`, in source order. -/
def pricePatterns : List PricePattern :=
  [ ⟨some ['$'], ⟨[','], ['.'], false⟩, false⟩,
    ⟨none, ⟨[','], ['.'], false⟩, true⟩,
    ⟨some ['U', 'S', 'D'], ⟨[','], ['.'], false⟩, false⟩,
    ⟨some ['£'], ⟨[','], ['.'], false⟩, false⟩,
    ⟨some ['€'], ⟨['.', ','], ['.', ','], false⟩, false⟩,
    ⟨none, ⟨[','], ['.'], true⟩, false⟩ ]

/-! ## `_extract_price_from_text` and `_detect_currency` (source lines 89–114) -/

/-- Post-process one regex group exactly as source lines 98–105: strip commas,
then if more than one `.` remains treat as European format, then `float`. -/
def groupToPrice (g : List Char) : Option ℚ :=
  let raw := g.filter (· ≠ ',')
  let raw :=
    if raw.count '.' > 1 then
      ((raw.filter (· ≠ '.')).map fun c => if c = ',' then '.' else c)
    else raw
  pyFloat (String.mk raw)

def tryPatterns : List PricePattern → List Char → Option ℚ
  | [], _ => none
  | p :: ps, t =>
    match searchPat p t with
    | some g =>
      (match groupToPrice g with
       | some q => some q
       | none => tryPatterns ps t)   -- float() failed: `continue` to next pattern
    | none => tryPatterns ps t

/-- `_extract_price_from_text`: pull the first recognisable price out of an
arbitrary string. -/
def extractPriceFromText (text : String) : Option ℚ :=
  if text = "" then none
  else tryPatterns pricePatterns (normWs text).toList

/-- `_detect_currency` (source lines 109–114). -/
def detectCurrency (text : String) : String :=
  if strContains text "£" then "GBP"
  else if strContains text "€" then "EUR"
  else "USD"

/-! ## The DOM arena

`BeautifulSoup` objects are modelled as an arena of nodes addressed by index;
index `0` is the soup/document object itself (tag `"[document]"`), which
`find_all` never returns.  A node's textual content is modelled as a single
leading string child (`text`), and `parent` is the non-owning upward
reference the source walks in `_dom_distance`.  In a parsed document the
nodes are numbered in document order, so a child's index is always strictly
greater than its parent's; `chain` bakes that invariant in as a guard, which
also makes the parent walk terminate. -/

structure Node where
  tag : String
  attrs : List (String × String)
  text : String
  children : List Nat
  parent : Option Nat
  deriving Repr, DecidableEq

structure Arena where
  nodes : List Node
  deriving Repr, DecidableEq

def Arena.get? (a : Arena) (i : Nat) : Option Node := a.nodes.get? i

def parentOf (a : Arena) (i : Nat) : Option Nat := (a.get? i).bind (·.parent)

def childrenOf (a : Arena) (i : Nat) : List Nat :=
  ((a.get? i).map (·.children)).getD []

def tagOf (a : Arena) (i : Nat) : String :=
  ((a.get? i).map (·.tag)).getD ""

def ownTextOf (a : Arena) (i : Nat) : String :=
  ((a.get? i).map (·.text)).getD ""

/-- `el.get(key)` attribute lookup. -/
def attrOf (a : Arena) (i : Nat) (k : String) : Option String :=
  ((a.get? i).map (·.attrs)).getD [] |>.lookup k

/-- The node together with all its ancestors, nearest first — exactly the
chain both `while` loops of `_dom_distance` walk (the node itself has
depth 0).  The `p < i` guard is the document-order invariant of a parsed
tree and gives termination. -/
def chainAux (a : Arena) : Nat → Nat → List Nat
  | 0, i => [i]
  | fuel + 1, i =>
    i :: (if (parentOf a i).getD i < i then chainAux a fuel ((parentOf a i).getD i) else [])

def chain (a : Arena) (i : Nat) : List Nat := chainAux a i i

/-- The second loop of `_dom_distance`: walk `cb` with a running depth; on
the first node present in `ca` return its recorded depth in `ca` (the index,
since ancestor chains have no duplicates) plus the running depth; if the
walk ends, return the disconnected sentinel `10_000`. -/
def searchCommon (ca : List Nat) : List Nat → Nat → Nat
  | [], _ => 10000
  | x :: xs, d => if x ∈ ca then ca.indexOf x + d else searchCommon ca xs (d + 1)

/-- `_dom_distance` (source lines 153–174). -/
def domDistance (a : Arena) (iA iB : Nat) : Nat :=
  searchCommon (chain a iA) (chain a iB) 0

/-! ## Text extraction and document-order traversal -/

/-- The stripped, non-empty string pieces below a node, in document order
(`get_text(strip=True)` collects exactly these). -/
def textPieces (a : Arena) : Nat → Nat → List String
  | 0, _ => []
  | fuel + 1, i =>
    let own := pyStrip (ownTextOf a i)
    (if own = "" then [] else [own]) ++
      (childrenOf a i).flatMap (textPieces a fuel)

/-- `el.get_text(separator=sep, strip=True)`. -/
def getText (a : Arena) (sep : String) (i : Nat) : String :=
  String.intercalate sep (textPieces a a.nodes.length i)

/-- Document-order (preorder) enumeration below a node, the node included. -/
def walkAll (a : Arena) : Nat → Nat → List Nat
  | 0, _ => []
  | fuel + 1, i => i :: (childrenOf a i).flatMap (walkAll a fuel)

/-- `soup.find_all(True)`: every element of the document in document order,
excluding the soup object itself (index 0). -/
def allElems (a : Arena) : List Nat :=
  (childrenOf a 0).flatMap (walkAll a a.nodes.length)

/-- `soup.find(tag)`: first element with this tag in document order. -/
def findFirstTag (a : Arena) (t : String) : Option Nat :=
  (allElems a).find? fun i => tagOf a i = t

/-- The `_SKIP` / `_SKIP_TAGS` set (source lines 132 and 317). -/
def skipTags : List String := ["script", "style", "meta", "link", "head", "noscript"]

/-! ## `_find_anchor_element` (source lines 117–150)

Scores are exact rationals; the source compares Python floats
`len(needle) / len(text)`, and for equal ratios the floats coincide (IEEE
division of equal exact quotients rounds identically), so strict comparison
agrees for the tie-keeps-first behaviour. -/

def findAnchorElement (a : Arena) (productName : String) : Option Nat :=
  let needle := pyStrip (strLower productName)
  if needle = "" then findFirstTag a "h1"
  else
    let best :=
      (allElems a).foldl
        (fun (st : Option Nat × ℚ) i =>
          if skipTags.contains (tagOf a i) then st
          else
            let text := getText a "" i
            if text = "" then st
            else
              let tl := strLower text
              if strContains tl needle then
                let score : ℚ := (needle.length : ℚ) / (tl.length : ℚ)
                if score > st.2 then (some i, score) else st
              else st)
        (none, 0)
    match best.1 with
    | some i => some i
    | none => findFirstTag a "h1"

/-! ## CSS selectors (`_PRICE_SELECTORS`, source lines 45–76)

The pool only uses: tag names, `#id`, `.class` (whitespace-token match on the
`class` attribute), `[attr="v"]` (exact), `[attr*="v"]` (substring), the child
combinator `>` and the descendant combinator (space).  `select` returns
matches in document order, as soupsieve does. -/

inductive Simple where
  | tagIs (t : String)
  | idIs (v : String)
  | classHas (c : String)
  | attrEq (k v : String)
  | attrSub (k v : String)
  deriving Repr, DecidableEq

def matchesSimple (a : Arena) (i : Nat) : Simple → Bool
  | .tagIs t => tagOf a i = t
  | .idIs v => attrOf a i "id" = some v
  | .classHas c =>
    match attrOf a i "class" with
    | some s => ((splitWsAux s.toList []).map String.mk).contains c
    | none => false
  | .attrEq k v => attrOf a i k = some v
  | .attrSub k v =>
    match attrOf a i k with
    | some s => strContains s v
    | none => false

def matchesCompound (a : Arena) (i : Nat) (c : List Simple) : Bool :=
  c.all (matchesSimple a i)

inductive Sel where
  | cpd (c : List Simple)
  | childOf (anc : List Simple) (c : List Simple)
  | descOf (anc : List Simple) (c : List Simple)
  deriving Repr, DecidableEq

def matchesSel (a : Arena) (i : Nat) : Sel → Bool
  | .cpd c => matchesCompound a i c
  | .childOf anc c =>
    matchesCompound a i c &&
      (match parentOf a i with
       | some p => matchesCompound a p anc
       | none => false)
  | .descOf anc c =>
    matchesCompound a i c &&
      ((chain a i).drop 1).any fun p => matchesCompound a p anc

def select (a : Arena) (s : Sel) : List Nat :=
  (allElems a).filter fun i => matchesSel a i s

/-- The 24 `(selector, attr_type)` pairs of `_PRICE_SELECTORS`, in order. -/
def priceSelectors : List (Sel × String) :=
  [ (.cpd [.attrEq "itemprop" "price"], "content"),
    (.cpd [.attrEq "itemprop" "price"], "text"),
    (.cpd [.tagIs "meta", .attrEq "property" "product:price:amount"], "content"),
    (.cpd [.tagIs "meta", .attrEq "property" "og:price:amount"], "content"),
    (.cpd [.idIs "priceblock_ourprice"], "text"),
    (.cpd [.idIs "priceblock_dealprice"], "text"),
    (.childOf [.classHas "a-price"] [.classHas "a-offscreen"], "text"),
    (.cpd [.idIs "price_inside_buybox"], "text"),
    (.descOf [.classHas "priceView-hero-price"] [.tagIs "span", .attrEq "aria-hidden" "true"], "text"),
    (.cpd [.attrSub "data-test-id" "Price"], "text"),
    (.cpd [.attrSub "data-test-id" "price"], "text"),
    (.cpd [.attrSub "data-testid" "Price"], "text"),
    (.cpd [.attrSub "data-testid" "price"], "text"),
    (.cpd [.attrSub "data-name-id" "Price"], "text"),
    (.cpd [.classHas "product-price"], "text"),
    (.cpd [.classHas "price--main"], "text"),
    (.descOf [.classHas "price-box"] [.classHas "price"], "text"),
    (.cpd [.classHas "woocommerce-Price-amount"], "text"),
    (.cpd [.attrSub "class" "ProductPrice"], "text"),
    (.cpd [.attrSub "class" "product-price"], "text"),
    (.cpd [.attrSub "class" "current-price"], "text"),
    (.cpd [.attrSub "class" "sale-price"], "text"),
    (.cpd [.idIs "price"], "text"),
    (.cpd [.classHas "price"], "text") ]

/-! ## The best-candidate loop shared by `_try_selectors` and
`_try_proximity_sweep` (source lines 279–299 and 318–341)

Both loops carry `(best_dist, best_price, best_currency)` initialised to
`(10_001, None, "USD")`, extract a price from each candidate's raw text,
apply that strategy's keep-test, and replace the best on a strictly smaller
DOM distance to the anchor (distance `0` for every candidate when the anchor
is absent). -/

structure BestSt where
  bestDist : Nat
  bestPrice : Option ℚ
  bestCurrency : String
  deriving Repr, DecidableEq

def initSt : BestSt := ⟨10001, none, "USD"⟩

/-- `_dom_distance(el, anchor) if anchor else 0`. -/
def distTo (a : Arena) (anchor : Option Nat) (i : Nat) : Nat :=
  match anchor with
  | some anc => domDistance a i anc
  | none => 0

def stepCand (keep : ℚ → Bool) (dOf : Nat → Nat) (st : BestSt) : Nat × String → BestSt
  | (i, raw) =>
    match extractPriceFromText raw with
    | none => st
    | some p =>
      if keep p then
        if dOf i < st.bestDist then ⟨dOf i, some p, detectCurrency raw⟩ else st
      else st

def runCands (keep : ℚ → Bool) (dOf : Nat → Nat) (l : List (Nat × String))
    (st : BestSt) : BestSt :=
  l.foldl (stepCand keep dOf) st

def stResult (st : BestSt) : Option (ℚ × String) :=
  st.bestPrice.map fun p => (p, st.bestCurrency)

/-- Raw text of a selector candidate: `get_text(separator=" ", strip=True)`
for `"text"` mode, else `el.get(attr_type, "")`. -/
def rawOf (a : Arena) (mode : String) (i : Nat) : String :=
  if mode = "text" then getText a " " i else (attrOf a i mode).getD ""

/-- Every element matched by every selector in the pool, in the loop's
iteration order (selector-major, then document order), with its raw text. -/
def selCands (a : Arena) : List (Nat × String) :=
  priceSelectors.flatMap fun sm => (select a sm.1).map fun i => (i, rawOf a sm.2 i)

/-- `if not price or price <= 0: continue` — `not price` is float-zero. -/
def selKeep (p : ℚ) : Bool := decide (0 < p)

/-- `if anchor is None: anchor = soup.find("h1")` — the default both
strategies apply first (source lines 277–278 and 315–316). -/
def strategyAnchor (a : Arena) (anchor : Option Nat) : Option Nat :=
  anchor.orElse fun _ => findFirstTag a "h1"

/-- `_try_selectors` (source lines 269–300). -/
def trySelectors (a : Arena) (anchor : Option Nat) : Option (ℚ × String) :=
  stResult (runCands selKeep (distTo a (strategyAnchor a anchor)) (selCands a) initSt)

/-- The nodes the proximity sweep extracts a price from (visible tag, no
element children, non-empty visible text of at most 30 characters), in
document order, paired with that text. -/
def sweepCands (a : Arena) : List (Nat × String) :=
  ((allElems a).filter fun i =>
      !skipTags.contains (tagOf a i) && (childrenOf a i).isEmpty &&
        (let t := getText a " " i
         !(t = "") && t.length ≤ 30)).map
    fun i => (i, getText a " " i)

/-- `if not price or not (0 < price < 1_000_000): continue`. -/
def sweepKeep (p : ℚ) : Bool := decide (0 < p ∧ p < 1000000)

/-- `_try_proximity_sweep` (source lines 303–342). -/
def tryProximitySweep (a : Arena) (anchor : Option Nat) : Option (ℚ × String) :=
  stResult (runCands sweepKeep (distTo a (strategyAnchor a anchor)) (sweepCands a) initSt)

/-! ## JSON values and `json.loads`

JSON-loaded Python values.  A number atom carries its source literal: the
code only ever feeds numbers through `float(str(x))`, and for canonical
decimal literals Python's `str` round-trips the literal, so keeping the
literal is value-faithful. -/

inductive Json where
  | null
  | bool (b : Bool)
  | num (lit : String)
  | str (s : String)
  | arr (elems : List Json)
  | obj (fields : List (String × Json))
  deriving Repr

/-- Python truthiness of a JSON-loaded value. -/
def jTruthy : Json → Bool
  | .null => false
  | .bool b => b
  | .num lit => ((pyFloat lit).getD 0) ≠ 0
  | .str s => s ≠ ""
  | .arr l => !l.isEmpty
  | .obj l => !l.isEmpty

mutual

/-- Python `repr` of a JSON-loaded value (enough for `str(...)` here: the
result is only used verbatim for strings, or fed to `float()`, which fails on
every bracketed rendering anyway). -/
def pyRepr : Json → String
  | .null => "None"
  | .bool true => "True"
  | .bool false => "False"
  | .num lit => lit
  | .str s => "'" ++ s ++ "'"
  | .arr l => "[" ++ pyReprElems l ++ "]"
  | .obj l => "\x7b" ++ pyReprFields l ++ "\x7d"

def pyReprElems : List Json → String
  | [] => ""
  | [x] => pyRepr x
  | x :: y :: xs => pyRepr x ++ ", " ++ pyReprElems (y :: xs)

def pyReprFields : List (String × Json) → String
  | [] => ""
  | [(k, v)] => "'" ++ k ++ "': " ++ pyRepr v
  | (k, v) :: y :: xs => "'" ++ k ++ "': " ++ pyRepr v ++ ", " ++ pyReprFields (y :: xs)

end

/-- Python `str(...)` of a JSON-loaded value. -/
def jsonPyStr : Json → String
  | .str s => s
  | j => pyRepr j

/-- Fields of a dict, or failure (`AttributeError` on `.get`) otherwise. -/
def jDict : Json → Option (List (String × Json))
  | .obj f => some f
  | _ => none

/-- Python `dict.get(k)` on JSON-object fields: `none` means the key is
absent (Python returns `None`; duplicate keys keep the last). -/
def dictGet (fields : List (String × Json)) (k : String) : Option Json :=
  fields.reverse.lookup k

/-- `dict.get(k)` with Python's `None` made explicit as `Json.null`. -/
def dictGetN (fields : List (String × Json)) (k : String) : Json :=
  (dictGet fields k).getD .null

/-! ### A small `json.loads` (fuel-based recursive descent) -/

def jsonWs (c : Char) : Bool := c = ' ' || c = '\t' || c = '\n' || c = '\r'

def hexVal (c : Char) : Option Nat :=
  let n := c.toNat
  if 48 ≤ n ∧ n ≤ 57 then some (n - 48)
  else if 97 ≤ n ∧ n ≤ 102 then some (n - 87)
  else if 65 ≤ n ∧ n ≤ 70 then some (n - 55)
  else none

/-- Parse a JSON string body (after the opening quote). -/
def parseJStr : Nat → List Char → Option (List Char × List Char)
  | 0, _ => none
  | _ + 1, [] => none
  | fuel + 1, c :: rest =>
    if c = '"' then some ([], rest)
    else if c = '\\' then
      match rest with
      | [] => none
      | e :: rest' =>
        let esc : Option (Char × List Char) :=
          if e = '"' then some ('"', rest')
          else if e = '\\' then some ('\\', rest')
          else if e = '/' then some ('/', rest')
          else if e = 'b' then some ('\x08', rest')
          else if e = 'f' then some ('\x0c', rest')
          else if e = 'n' then some ('\n', rest')
          else if e = 'r' then some ('\r', rest')
          else if e = 't' then some ('\t', rest')
          else if e = 'u' then
            match rest' with
            | h1 :: h2 :: h3 :: h4 :: rest'' =>
              (hexVal h1).bind fun v1 => (hexVal h2).bind fun v2 =>
                (hexVal h3).bind fun v3 => (hexVal h4).map fun v4 =>
                  (Char.ofNat (((v1 * 16 + v2) * 16 + v3) * 16 + v4), rest'')
            | _ => none
          else none
        esc.bind fun (ch, r) =>
          (parseJStr fuel r).map fun (s, r') => (ch :: s, r')
    else (parseJStr fuel rest).map fun (s, r') => (c :: s, r')

/-- Parse a JSON numeric literal (`-?(0|[1-9]\d*)(\.\d+)?([eE][+-]?\d+)?`),
returning the literal's characters. -/
def parseJNum (l : List Char) : Option (List Char × List Char) :=
  let (sgn, l1) : List Char × List Char :=
    match l with
    | '-' :: rest => (['-'], rest)
    | _ => ([], l)
  match l1 with
  | [] => none
  | c :: _ =>
    if !c.isDigit then none
    else
      let ip := l1.takeWhile Char.isDigit
      if c = '0' && ip.length > 1 then none
      else
        let l2 := l1.drop ip.length
        let (fp, l3) : List Char × List Char :=
          match l2 with
          | '.' :: rest =>
            let ds := rest.takeWhile Char.isDigit
            if ds.isEmpty then ([], l2) else ('.' :: ds, rest.drop ds.length)
          | _ => ([], l2)
        if (match l2 with | '.' :: _ => fp.isEmpty | _ => false) then none
        else
          let (ep, l4) : List Char × List Char :=
            match l3 with
            | e :: rest =>
              if e = 'e' || e = 'E' then
                let (es, rest') : List Char × List Char :=
                  match rest with
                  | s :: r => if s = '+' || s = '-' then ([s], r) else ([], rest)
                  | [] => ([], rest)
                let ds := rest'.takeWhile Char.isDigit
                if ds.isEmpty then ([], l3) else (e :: (es ++ ds), rest'.drop ds.length)
              else ([], l3)
            | [] => ([], l3)
          if (match l3 with
              | e :: _ => (e = 'e' || e = 'E') && ep.isEmpty
              | _ => false) then none
          else some (sgn ++ ip ++ fp ++ ep, l4)

mutual

def parseJVal : Nat → List Char → Option (Json × List Char)
  | 0, _ => none
  | fuel + 1, l =>
    match l.dropWhile jsonWs with
    | [] => none
    | l1@(c :: rest) =>
      if c = 'n' then
        if seqStarts ['u', 'l', 'l'] rest then some (.null, rest.drop 3) else none
      else if c = 't' then
        if seqStarts ['r', 'u', 'e'] rest then some (.bool true, rest.drop 3) else none
      else if c = 'f' then
        if seqStarts ['a', 'l', 's', 'e'] rest then some (.bool false, rest.drop 4) else none
      else if c = '"' then
        (parseJStr (fuel + 1) rest).map fun (s, r) => (.str (String.mk s), r)
      else if c = '[' then
        match rest.dropWhile jsonWs with
        | ']' :: r => some (.arr [], r)
        | _ => (parseJElems fuel rest).map fun (es, r) => (.arr es, r)
      else if c = '{' then
        match rest.dropWhile jsonWs with
        | '}' :: r => some (.obj [], r)
        | _ => (parseJFields fuel rest).map fun (fs, r) => (.obj fs, r)
      else
        (parseJNum l1).map fun (lit, r) => (.num (String.mk lit), r)

def parseJElems : Nat → List Char → Option (List Json × List Char)
  | 0, _ => none
  | fuel + 1, l =>
    (parseJVal fuel l).bind fun (v, r) =>
      match r.dropWhile jsonWs with
      | ',' :: r' => (parseJElems fuel r').map fun (vs, r'') => (v :: vs, r'')
      | ']' :: r' => some ([v], r')
      | _ => none

def parseJFields : Nat → List Char → Option (List (String × Json) × List Char)
  | 0, _ => none
  | fuel + 1, l =>
    match l.dropWhile jsonWs with
    | '"' :: r =>
      (parseJStr (fuel + 1) r).bind fun (k, r1) =>
        match r1.dropWhile jsonWs with
        | ':' :: r2 =>
          (parseJVal fuel r2).bind fun (v, r3) =>
            match r3.dropWhile jsonWs with
            | ',' :: r4 => (parseJFields fuel r4).map fun (fs, r5) => ((String.mk k, v) :: fs, r5)
            | '}' :: r4 => some ([(String.mk k, v)], r4)
            | _ => none
        | _ => none
    | _ => none

end

/-- `json.loads` (must consume the whole input). -/
def jsonLoads (s : String) : Option Json :=
  (parseJVal (s.length * 2 + 4) s.toList).bind fun (v, rest) =>
    if (rest.dropWhile jsonWs).isEmpty then some v else none

/-! ## URL helpers (`urllib.parse.urlparse`, restricted to the shapes used) -/

/-- Split a list around the first occurrence of `needle`. -/
def splitFirst [DecidableEq α] (needle : List α) : List α → Option (List α × List α)
  | [] => if needle.isEmpty then some ([], []) else none
  | l@(x :: rest) =>
    if seqStarts needle l then some ([], l.drop needle.length)
    else (splitFirst needle rest).map fun pq => (x :: pq.1, pq.2)

/-- `urlparse(s).path`. -/
def urlPath (s : String) : String :=
  match splitFirst "://".toList s.toList with
  | some (_, rest) =>
    let after := rest.drop (rest.takeWhile fun c => c ≠ '/' && c ≠ '?' && c ≠ '#').length
    match after with
    | '/' :: _ => String.mk (after.takeWhile fun c => c ≠ '?' && c ≠ '#')
    | _ => ""
  | none => String.mk (s.toList.takeWhile fun c => c ≠ '?' && c ≠ '#')

/-- `(urlparse(s).scheme, urlparse(s).netloc)` for `scheme://netloc/...`
shapes (what the orchestrator's validity check needs). -/
def urlSchemeNetloc (s : String) : String × String :=
  match splitFirst "://".toList s.toList with
  | some (pre, rest) =>
    if !pre.isEmpty && ((pre.head?.map Char.isAlpha).getD false) &&
        pre.all (fun c => c.isAlphanum || c = '+' || c = '-' || c = '.') then
      (String.mk (pre.map Char.toLower),
        String.mk (rest.takeWhile fun c => c ≠ '/' && c ≠ '?' && c ≠ '#'))
    else ("", "")
  | none => ("", "")

/-- Python `s.rstrip("/")`. -/
def rstripSlash (s : String) : String :=
  String.mk ((s.toList.reverse.dropWhile (· = '/')).reverse)

/-! ## `_try_json_ld` (source lines 214–266) -/

structure LdCandidate where
  name : Option String
  price : ℚ
  currency : Json
  urlMatch : Bool
  deriving Repr

/-- `script.string or ""`: the single string child, if any. -/
def scriptText (a : Arena) (i : Nat) : String :=
  if (childrenOf a i).isEmpty then ownTextOf a i else ""

/-- The texts of all `<script type="application/ld+json">` blocks, in
document order. -/
def ldScriptTexts (a : Arena) : List String :=
  ((allElems a).filter fun i =>
      tagOf a i = "script" && attrOf a i "type" = some "application/ld+json").map
    (scriptText a)

/-- `data[0] if isinstance(data, list) else data` with `IndexError` on `[]`. -/
def unwrapFirst : Json → Option Json
  | .arr [] => none
  | .arr (x :: _) => some x
  | j => some j

/-- `data.get("@type") != "Product"` — only the string `"Product"` passes. -/
def isProductType : Json → Bool
  | .str t => t = "Product"
  | _ => false

/-- The body of the per-block `try:` in `_try_json_ld` (lines 226–257); any
raised exception and both `continue`s become `none` (block skipped). -/
def ldEntryCandidate (pagePath : String) (blockText : String) : Option LdCandidate := do
  let data0 ← jsonLoads blockText
  let data ← unwrapFirst data0
  let dataF ← jDict data
  if !isProductType (dictGetN dataF "@type") then none
  else do
    let offersRaw : Json := (dictGet dataF "offers").getD (.obj [])
    let offers ← unwrapFirst offersRaw
    let offersF ← jDict offers
    let priceRaw : Json :=
      if jTruthy (dictGetN offersF "price") then dictGetN offersF "price"
      else dictGetN dataF "price"
    let nameJ : Json := dictGetN dataF "name"
    let currency : Json := (dictGet offersF "priceCurrency").getD (.str "USD")
    match priceRaw with
    | .null => none
    | _ => do
      let price ← pyFloat (String.mk ((jsonPyStr priceRaw).toList.filter (· ≠ ',')))
      let ldUrlRaw : Json :=
        if jTruthy (dictGetN dataF "url") then dictGetN dataF "url"
        else if jTruthy (dictGetN dataF "@id") then dictGetN dataF "@id"
        else .str ""
      let ldUrlStr ← (match ldUrlRaw with | .str s => some s | _ => none)
      let ldPath :=
        if strStarts ldUrlStr "http" then rstripSlash (urlPath ldUrlStr)
        else rstripSlash ldUrlStr
      let urlMatch := pagePath ≠ "" && ldPath ≠ "" && pagePath = ldPath
      pure
        ⟨if jTruthy nameJ then some (pyStrip (jsonPyStr nameJ)) else none,
          price, currency, urlMatch⟩

/-- All valid Product candidates of the page, in document order. -/
def ldCandidates (a : Arena) (pageUrl : String) : List LdCandidate :=
  let pagePath := if pageUrl ≠ "" then rstripSlash (urlPath pageUrl) else ""
  (ldScriptTexts a).filterMap (ldEntryCandidate pagePath)

structure LdResult where
  name : Option String
  price : ℚ
  currency : Json
  deriving Repr

/-- `_try_json_ld`: prefer the first URL-matching candidate, else the first
candidate; `None` when there is no candidate. -/
def tryJsonLd (a : Arena) (pageUrl : String) : Option LdResult :=
  let cands := ldCandidates a pageUrl
  match cands.filter (·.urlMatch) with
  | c :: _ => some ⟨c.name, c.price, c.currency⟩
  | [] => cands.head?.map fun c => ⟨c.name, c.price, c.currency⟩

/-! ## `_extract_title` (source lines 177–211) -/

/-- One iteration of the title loop's `try:` body — `some` exactly when the
block is a Product with a truthy name. -/
def titleFromBlock (blockText : String) : Option String := do
  let data0 ← jsonLoads blockText
  let data ← unwrapFirst data0
  let dataF ← jDict data
  if isProductType (dictGetN dataF "@type") && jTruthy (dictGetN dataF "name") then
    some (pyStrip (jsonPyStr (dictGetN dataF "name")))
  else none

/-- `soup.find("meta", property="og:title") or soup.find("meta",
attrs={"name": "og:title"})`, then a truthy `content`. -/
def ogTitleContent (a : Arena) : Option String :=
  ((allElems a).find? fun i =>
      tagOf a i = "meta" && attrOf a i "property" = some "og:title").orElse
    (fun _ =>
      (allElems a).find? fun i =>
        tagOf a i = "meta" && attrOf a i "name" = some "og:title")
  |>.bind fun i =>
    match attrOf a i "content" with
    | some c => if c ≠ "" then some c else none
    | none => none

def extractTitle (a : Arena) : String :=
  match ((ldScriptTexts a).filterMap titleFromBlock).head? with
  | some n => n
  | none =>
    match findFirstTag a "h1" with
    | some h1 => getText a "" h1
    | none =>
      match ogTitleContent a with
      | some c => pyStrip c
      | none =>
        match findFirstTag a "title" with
        | some t => getText a "" t
        | none => "Unknown Product"

/-! ## The orchestrator `scrape_product` (source lines 379–433)

The network fetch is the external collaborator; `html = none` stands for a
failed or empty fetch (`if not html: return None`), and a fetched page is
consumed already parsed into an arena (parsing is the external DOM-parser
capability). -/

structure ScrapeResult where
  name : Option String
  price : ℚ
  currency : Json
  deriving Repr

/-- Line 412: `_find_anchor_element(soup, product_name) if product_name else
soup.find("h1")`. -/
def scrapeAnchor (a : Arena) (productName : String) : Option Nat :=
  if productName ≠ "" then findAnchorElement a productName
  else findFirstTag a "h1"

def scrapeProduct (url : String) (html : Option Arena) (productName : String) :
    Option ScrapeResult :=
  if ¬((urlSchemeNetloc url).1 = "http" ∨ (urlSchemeNetloc url).1 = "https") ∨
      (urlSchemeNetloc url).2 = "" then none
  else
    match html with
    | none => none
    | some soup =>
      -- the anchor of line 412 is `scrapeAnchor soup productName`; the source
      -- computes it once, and it is pure, so inlining it below is sound
      match tryJsonLd soup url with
      | some r =>
        -- `result.setdefault("name", _extract_title(soup))` on line 417 is a
        -- no-op: the dict built by `_try_json_ld` always contains the "name"
        -- key (possibly as None), and `setdefault` only inserts absent keys.
        some ⟨r.name, r.price, r.currency⟩
      | none =>
        match trySelectors soup (scrapeAnchor soup productName) with
        | some pc => some ⟨some (extractTitle soup), pc.1, .str pc.2⟩
        | none =>
          match tryProximitySweep soup (scrapeAnchor soup productName) with
          | some pc => some ⟨some (extractTitle soup), pc.1, .str pc.2⟩
          | none => none

/-! ## Building concrete documents

`HTree` is a convenience syntax for concrete test pages: `build` numbers the
nodes in document order (preorder), so every child index is strictly greater
than its parent's, as in a parsed page. -/

inductive HTree where
  | el (tag : String) (attrs : List (String × String)) (text : String) (kids : List HTree)

mutual

def buildOne (t : HTree) (idx : Nat) (par : Option Nat) : List Node × Nat :=
  match t with
  | .el tag attrs text kids =>
    let r := buildKids kids (idx + 1) idx
    (⟨tag, attrs, text, r.2.2, par⟩ :: r.1, r.2.1)

def buildKids : List HTree → Nat → Nat → List Node × Nat × List Nat
  | [], next, _ => ([], next, [])
  | k :: ks, next, par =>
    let r := buildOne k next (some par)
    let r' := buildKids ks r.2 par
    (r.1 ++ r'.1, r'.2.1, next :: r'.2.2)

end

/-- A whole parsed page: the soup object (index 0) above the given top-level
elements. -/
def mkDoc (kids : List HTree) : Arena :=
  ⟨(buildOne (.el "[document]" [] "" kids) 0 none).1⟩

/-! ## Surviving candidates of the two heuristic loops

A candidate survives when its raw text yields a price passing the strategy's
keep-test; the loops can only ever pick a survivor. -/

structure Cand where
  el : Nat
  raw : String
  price : ℚ
  deriving Repr, DecidableEq

def survCand (keep : ℚ → Bool) (c : Nat × String) : Option Cand :=
  (extractPriceFromText c.2).bind fun p =>
    if keep p then some ⟨c.1, c.2, p⟩ else none

def survivors (keep : ℚ → Bool) (l : List (Nat × String)) : List Cand :=
  l.filterMap (survCand keep)

/-! ## Concrete documents used by witnesses and counterexamples -/

/-- A JSON-LD Product whose offer declares the negative price `"-5"`. -/
def docNeg : Arena := mkDoc [
  .el "html" [] "" [
    .el "script" [("type", "application/ld+json")]
      "\x7b\"@type\": \"Product\", \"name\": \"N\", \"offers\": \x7b\"price\": \"-5\", \"priceCurrency\": \"USD\"\x7d\x7d" []]]

/-- A page with an h1 and one selector-matchable price element. -/
def docSel : Arena := mkDoc [
  .el "html" [] "" [
    .el "body" [] "" [
      .el "h1" [] "Cool Gadget" [],
      .el "div" [("class", "product-price")] "$49.00" []]]]

/-- Obfuscated class names: only the proximity sweep can find the price;
the decoy `$5.00` is farther from the h1 than `$12.50`. -/
def docSweep : Arena := mkDoc [
  .el "html" [] "" [
    .el "body" [] "" [
      .el "div" [] "" [
        .el "h1" [] "Thing" [],
        .el "span" [("class", "x1")] "$12.50" []],
      .el "div" [] "" [
        .el "div" [] "" [
          .el "div" [] "" [
            .el "span" [("class", "x2")] "$5.00" []]]]]]]

/-- A JSON-LD Product with a price but no `name`, on a page whose h1 would
give the title `"Fancy Widget"`. -/
def doc4 : Arena := mkDoc [
  .el "html" [] "" [
    .el "script" [("type", "application/ld+json")]
      "\x7b\"@type\": \"Product\", \"offers\": \x7b\"price\": \"19.99\"\x7d\x7d" [],
    .el "h1" [] "Fancy Widget" []]]

/-- Two JSON-LD Products; fetched at `https://x` (empty URL path), the second
declares `"url": "/"`, whose stripped path `""` equals the stripped request
path `""`. -/
def doc5 : Arena := mkDoc [
  .el "html" [] "" [
    .el "script" [("type", "application/ld+json")]
      "\x7b\"@type\": \"Product\", \"name\": \"A\", \"offers\": \x7b\"price\": \"1\"\x7d, \"url\": \"/a\"\x7d" [],
    .el "script" [("type", "application/ld+json")]
      "\x7b\"@type\": \"Product\", \"name\": \"B\", \"offers\": \x7b\"price\": \"2\"\x7d, \"url\": \"/\"\x7d" []]]

/-- A JSON-LD Product whose `url` path matches the request path. -/
def docLd : Arena := mkDoc [
  .el "html" [] "" [
    .el "script" [("type", "application/ld+json")]
      "\x7b\"@type\": \"Product\", \"name\": \"Widget\", \"offers\": \x7b\"price\": \"19.99\", \"priceCurrency\": \"USD\"\x7d, \"url\": \"https://x/widget\"\x7d" []]]

/-- No h1 anywhere; two positive selector candidates, of which the
`.product-price` one comes first in the selector pool although the `.price`
one comes first in document order. -/
def docNoH1 : Arena := mkDoc [
  .el "html" [] "" [
    .el "body" [] "" [
      .el "div" [("class", "price")] "$7.00" [],
      .el "div" [("class", "product-price")] "$3.00" []]]]

/-- One malformed structured-data block and nothing else of interest. -/
def docBad : Arena := mkDoc [
  .el "html" [] "" [
    .el "script" [("type", "application/ld+json")] "\x7bnot json" [],
    .el "div" [] "hello" []]]

/-! ## A document deep enough to defeat the `10_001` distance threshold

A chain of `deepLen` divs ending in an h1 anchor, plus one priced leaf: the
leaf's DOM distance to the anchor is `deepLen + 2 = 10_001`, which the loops'
initial `best_dist = 10_001` can never accept. -/

def deepLen : Nat := 9999

def chainDiv (k : Nat) : Node :=
  ⟨"div", [], "", [3 + k], some (if k = 0 then 0 else 1 + k)⟩

def h1Node : Node := ⟨"h1", [], "", [], some (1 + deepLen)⟩

def deepDoc : Arena :=
  ⟨⟨"[document]", [], "", [1, 2], none⟩ ::
    ⟨"div", [("class", "price")], "$5.00", [], some 0⟩ ::
    ((List.range deepLen).map chainDiv ++ [h1Node])⟩

def deepAnchor : Nat := 2 + deepLen

/-! # Theorems

Batteries marks the `Rat` field operations `@[irreducible]`; witnesses and
counterexamples below evaluate concrete documents with `decide`, which needs
them to unfold. -/

attribute [local semireducible] Rat.add Rat.mul Rat.inv Rat.sub Rat.ofScientific

/-! ## Ancestor chains and symmetry of `_dom_distance` (claim C8) -/

theorem chainAux_congr (a : Arena) :
    ∀ fuel i, i ≤ fuel → chainAux a fuel i = chainAux a i i := by
  intro fuel
  induction fuel using Nat.strong_induction_on with
  | _ fuel ih =>
    intro i hle
    rcases Nat.eq_zero_or_pos i with rfl | hipos
    · cases fuel with
      | zero => rfl
      | succ f => simp [chainAux]
    · obtain ⟨j, rfl⟩ : ∃ j, i = j + 1 := ⟨i - 1, by omega⟩
      obtain ⟨f, rfl⟩ : ∃ f, fuel = f + 1 := ⟨fuel - 1, by omega⟩
      simp only [chainAux]
      by_cases hlt : (parentOf a (j + 1)).getD (j + 1) < j + 1
      · rw [if_pos hlt, if_pos hlt,
          ih f (by omega) _ (by omega),
          ih j (by omega) _ (by omega)]
      · rw [if_neg hlt, if_neg hlt]

theorem chain_unfold (a : Arena) (i : Nat) :
    chain a i =
      i :: (if (parentOf a i).getD i < i then chain a ((parentOf a i).getD i) else []) := by
  unfold chain
  cases i with
  | zero => simp [chainAux]
  | succ j =>
    simp only [chainAux]
    by_cases hlt : (parentOf a (j + 1)).getD (j + 1) < j + 1
    · rw [if_pos hlt, if_pos hlt, chainAux_congr a j _ (by omega)]
    · rw [if_neg hlt, if_neg hlt]

theorem chain_mem_le (a : Arena) : ∀ i, ∀ x ∈ chain a i, x ≤ i := by
  intro i
  induction i using Nat.strong_induction_on with
  | _ i ih =>
    intro x hx
    rw [chain_unfold] at hx
    rcases List.mem_cons.1 hx with h | h
    · exact h.le
    · by_cases hlt : (parentOf a i).getD i < i
      · rw [if_pos hlt] at h
        exact (ih _ hlt x h).trans hlt.le
      · rw [if_neg hlt] at h; simp at h

theorem chain_pairwise (a : Arena) : ∀ i, (chain a i).Pairwise (fun x y => y < x) := by
  intro i
  induction i using Nat.strong_induction_on with
  | _ i ih =>
    rw [chain_unfold]
    refine List.pairwise_cons.2 ⟨?_, ?_⟩
    · intro y hy
      by_cases hlt : (parentOf a i).getD i < i
      · rw [if_pos hlt] at hy
        exact (chain_mem_le a _ y hy).trans_lt hlt
      · rw [if_neg hlt] at hy; simp at hy
    · by_cases hlt : (parentOf a i).getD i < i
      · rw [if_pos hlt]; exact ih _ hlt
      · rw [if_neg hlt]; exact List.Pairwise.nil

theorem chain_nodup (a : Arena) (i : Nat) : (chain a i).Nodup :=
  (chain_pairwise a i).imp fun h => (ne_of_lt h).symm

theorem chain_suffix (a : Arena) : ∀ i, ∀ x ∈ chain a i, chain a x <:+ chain a i := by
  intro i
  induction i using Nat.strong_induction_on with
  | _ i ih =>
    intro x hx
    rw [chain_unfold] at hx
    rcases List.mem_cons.1 hx with h | h
    · subst h; exact List.suffix_refl _
    · by_cases hlt : (parentOf a i).getD i < i
      · rw [if_pos hlt] at h
        refine (ih _ hlt x h).trans ?_
        rw [chain_unfold a i, if_pos hlt]
        exact List.suffix_cons i _
      · rw [if_neg hlt] at h; simp at h

theorem searchCommon_of_disjoint (ca : List Nat) :
    ∀ cb d, (∀ x ∈ cb, x ∉ ca) → searchCommon ca cb d = 10000 := by
  intro cb
  induction cb with
  | nil => intro d _; rfl
  | cons x xs ih =>
    intro d h
    have hx : x ∉ ca := h x (List.mem_cons_self _ _)
    simp only [searchCommon, if_neg hx]
    exact ih (d + 1) fun y hy => h y (List.mem_cons_of_mem _ hy)

theorem searchCommon_append (ca : List Nat) :
    ∀ (pre : List Nat) (x : Nat) (suf : List Nat) (d : Nat),
      (∀ y ∈ pre, y ∉ ca) → x ∈ ca →
      searchCommon ca (pre ++ x :: suf) d = ca.indexOf x + (d + pre.length) := by
  intro pre
  induction pre with
  | nil =>
    intro x suf d _ hx
    simp only [List.nil_append, searchCommon, if_pos hx, List.length_nil, Nat.add_zero]
  | cons y ys ih =>
    intro x suf d h hx
    have hy : y ∉ ca := h y (List.mem_cons_self _ _)
    simp only [List.cons_append, searchCommon, if_neg hy, List.append_eq]
    rw [ih x suf (d + 1) (fun z hz => h z (List.mem_cons_of_mem _ hz)) hx]
    simp only [List.length_cons]
    omega

theorem exists_first_common (ca : List Nat) :
    ∀ cb : List Nat, (∃ y ∈ cb, y ∈ ca) →
      ∃ pre x suf, cb = pre ++ x :: suf ∧ x ∈ ca ∧ ∀ y ∈ pre, y ∉ ca := by
  intro cb
  induction cb with
  | nil => rintro ⟨y, hy, -⟩; simp at hy
  | cons z zs ih =>
    intro hex
    by_cases hz : z ∈ ca
    · exact ⟨[], z, zs, rfl, hz, by simp⟩
    · have hex' : ∃ y ∈ zs, y ∈ ca := by
        rcases hex with ⟨y, hy, hyca⟩
        rcases List.mem_cons.1 hy with rfl | hy'
        · exact absurd hyca hz
        · exact ⟨y, hy', hyca⟩
      rcases ih hex' with ⟨pre, x, suf, heq, hx, hpre⟩
      refine ⟨z :: pre, x, suf, by rw [heq]; rfl, hx, ?_⟩
      intro y hy
      rcases List.mem_cons.1 hy with rfl | hy'
      · exact hz
      · exact hpre y hy'

theorem indexOf_append_cons (x : Nat) :
    ∀ (pre suf : List Nat), x ∉ pre → (pre ++ x :: suf).indexOf x = pre.length := by
  intro pre
  induction pre with
  | nil => intro suf _; exact List.indexOf_cons_self x _
  | cons y ys ih =>
    intro suf h
    have hyx : y ≠ x := fun he => h (he ▸ List.mem_cons_self _ _)
    rw [List.cons_append, List.indexOf_cons_ne _ hyx, ih suf fun hm => h (List.mem_cons_of_mem _ hm)]
    rfl

theorem suffix_cons_eq_of_nodup {t suf pre : List Nat} {x : Nat}
    (hsuf : (x :: t) <:+ (pre ++ x :: suf)) (hnd : (pre ++ x :: suf).Nodup)
    (hxpre : x ∉ pre) : x :: t = x :: suf := by
  rcases hsuf with ⟨q, hq⟩
  have hndq : (q ++ x :: t).Nodup := hq ▸ hnd
  have hxq : x ∉ q := by
    have hdisj := (List.nodup_append.1 hndq).2.2
    exact fun hxq => hdisj hxq (List.mem_cons_self _ _)
  have h1 : (q ++ x :: t).indexOf x = q.length := indexOf_append_cons x q t hxq
  have h2 : (pre ++ x :: suf).indexOf x = pre.length := indexOf_append_cons x pre suf hxpre
  rw [hq, h2] at h1
  exact (List.append_inj hq h1.symm).2

/-- Claim C8: `_dom_distance` is symmetric in its two node arguments, for
every arena and every pair of node indices (the disconnected sentinel case
included). -/
theorem claim8_dom_distance_symm (a : Arena) (i j : Nat) :
    domDistance a i j = domDistance a j i := by
  unfold domDistance
  by_cases hex : ∃ y ∈ chain a j, y ∈ chain a i
  · obtain ⟨pre, x, suf, hcb, hxca, hpre⟩ := exists_first_common (chain a i) (chain a j) hex
    have hxcb : x ∈ chain a j := by
      rw [hcb]; exact List.mem_append_right _ (List.mem_cons_self _ _)
    have hex2 : ∃ y ∈ chain a i, y ∈ chain a j := ⟨x, hxca, hxcb⟩
    obtain ⟨pre', x', suf', hca, hx'cb, hpre'⟩ := exists_first_common (chain a j) (chain a i) hex2
    have hx'ca : x' ∈ chain a i := by
      rw [hca]; exact List.mem_append_right _ (List.mem_cons_self _ _)
    have hxnpre : x ∉ pre := fun hm => hpre x hm hxca
    have hx'npre' : x' ∉ pre' := fun hm => hpre' x' hm hx'cb
    -- the suffix of `chain a j` headed by `x` is `chain a x` itself
    have hchx : chain a x = x :: suf := by
      have hs : chain a x <:+ chain a j := chain_suffix a j x hxcb
      rw [hcb] at hs
      have hhead : chain a x = x :: (chain a x).tail := by rw [chain_unfold]; rfl
      have := suffix_cons_eq_of_nodup (t := (chain a x).tail) (hhead ▸ hs)
        (hcb ▸ chain_nodup a j) hxnpre
      rw [hhead, this]
    have hchx' : chain a x' = x' :: suf' := by
      have hs : chain a x' <:+ chain a i := chain_suffix a i x' hx'ca
      rw [hca] at hs
      have hhead : chain a x' = x' :: (chain a x').tail := by rw [chain_unfold]; rfl
      have := suffix_cons_eq_of_nodup (t := (chain a x').tail) (hhead ▸ hs)
        (hca ▸ chain_nodup a i) hx'npre'
      rw [hhead, this]
    -- each first-common node lies on the other's chain
    have hx'_in_chx : x' ∈ chain a x := by
      rw [hchx]
      have : x' ∈ chain a j := hx'cb
      rw [hcb] at this
      rcases List.mem_append.1 this with hm | hm
      · exact absurd hx'ca (hpre x' hm)
      · exact hm
    have hx_in_chx' : x ∈ chain a x' := by
      rw [hchx']
      have : x ∈ chain a i := hxca
      rw [hca] at this
      rcases List.mem_append.1 this with hm | hm
      · exact absurd hxcb (hpre' x hm)
      · exact hm
    -- hence the two chains coincide and the first-common nodes are equal
    have hs1 : chain a x' <:+ chain a x := chain_suffix a x x' hx'_in_chx
    have hs2 : chain a x <:+ chain a x' := chain_suffix a x' x hx_in_chx'
    have heq : chain a x = chain a x' :=
      hs2.eq_of_length (Nat.le_antisymm hs2.length_le hs1.length_le)
    have hxx' : x = x' := by
      have := hchx ▸ (heq.trans hchx')
      exact (List.cons.injEq _ _ _ _ ▸ this).1
    subst hxx'
    have e1 : searchCommon (chain a i) (chain a j) 0 =
        (chain a i).indexOf x + (0 + pre.length) := by
      rw [hcb]; exact searchCommon_append _ pre x suf 0 hpre hxca
    have e2 : searchCommon (chain a j) (chain a i) 0 =
        (chain a j).indexOf x + (0 + pre'.length) := by
      rw [hca]; exact searchCommon_append _ pre' x suf' 0 hpre' hx'cb
    have e3 : (chain a i).indexOf x = pre'.length := by
      rw [hca]; exact indexOf_append_cons x pre' suf' hx'npre'
    have e4 : (chain a j).indexOf x = pre.length := by
      rw [hcb]; exact indexOf_append_cons x pre suf hxnpre
    rw [e1, e2, e3, e4]
    omega
  · have hex' : ∀ y ∈ chain a i, y ∉ chain a j := by
      intro y hy hyj
      exact hex ⟨y, hyj, hy⟩
    have hex'' : ∀ y ∈ chain a j, y ∉ chain a i := by
      intro y hy hyi
      exact hex ⟨y, hy, hyi⟩
    rw [searchCommon_of_disjoint _ _ 0 hex'', searchCommon_of_disjoint _ _ 0 hex']

/-! ## The best-candidate loop: what it can return -/

theorem survivors_cons_none {keep : ℚ → Bool} {c : Nat × String} (cs : List (Nat × String))
    (hc : survCand keep c = none) : survivors keep (c :: cs) = survivors keep cs := by
  rw [survivors, List.filterMap_cons, hc, survivors]

theorem survivors_cons_some {keep : ℚ → Bool} {c : Nat × String} {s0 : Cand}
    (cs : List (Nat × String)) (hc : survCand keep c = some s0) :
    survivors keep (c :: cs) = s0 :: survivors keep cs := by
  rw [survivors, List.filterMap_cons, hc, survivors]

theorem survivors_keep {keep : ℚ → Bool} {l : List (Nat × String)} {s : Cand}
    (hs : s ∈ survivors keep l) :
    extractPriceFromText s.raw = some s.price ∧ keep s.price = true := by
  rw [survivors] at hs
  obtain ⟨c, -, hc⟩ := List.mem_filterMap.1 hs
  rw [survCand] at hc
  cases he : extractPriceFromText c.2 with
  | none => rw [he] at hc; simp at hc
  | some p =>
    rw [he, Option.some_bind] at hc
    by_cases hk : keep p
    · rw [if_pos hk] at hc
      obtain rfl := Option.some.inj hc
      exact ⟨he, by exact hk⟩
    · rw [if_neg hk] at hc; simp at hc

theorem runCands_cons (keep : ℚ → Bool) (dOf : Nat → Nat) (c : Nat × String)
    (cs : List (Nat × String)) (st : BestSt) :
    runCands keep dOf (c :: cs) st = runCands keep dOf cs (stepCand keep dOf st c) := rfl

theorem stepCand_of_none {keep : ℚ → Bool} {c : Nat × String} (dOf : Nat → Nat) (st : BestSt)
    (hc : survCand keep c = none) : stepCand keep dOf st c = st := by
  obtain ⟨i, raw⟩ := c
  rw [survCand] at hc
  cases he : extractPriceFromText raw with
  | none => simp only [stepCand, he]
  | some p =>
    rw [he, Option.some_bind] at hc
    by_cases hk : keep p
    · rw [if_pos hk] at hc; simp at hc
    · simp only [stepCand, he, hk, Bool.false_eq_true, if_false]

theorem stepCand_of_some {keep : ℚ → Bool} {c : Nat × String} {s0 : Cand} (dOf : Nat → Nat)
    (st : BestSt) (hc : survCand keep c = some s0) :
    stepCand keep dOf st c =
      if dOf s0.el < st.bestDist then ⟨dOf s0.el, some s0.price, detectCurrency s0.raw⟩
      else st := by
  obtain ⟨i, raw⟩ := c
  rw [survCand] at hc
  cases he : extractPriceFromText raw with
  | none => rw [he] at hc; simp at hc
  | some p =>
    rw [he, Option.some_bind] at hc
    by_cases hk : keep p
    · rw [if_pos hk] at hc
      obtain rfl := Option.some.inj hc
      simp only [stepCand, he, hk, if_true]
    · rw [if_neg hk] at hc; simp at hc

theorem stepCand_bestDist_le (keep : ℚ → Bool) (dOf : Nat → Nat) (st : BestSt)
    (c : Nat × String) : (stepCand keep dOf st c).bestDist ≤ st.bestDist := by
  cases hc : survCand keep c with
  | none => rw [stepCand_of_none dOf st hc]
  | some s0 =>
    rw [stepCand_of_some dOf st hc]
    by_cases hd : dOf s0.el < st.bestDist
    · rw [if_pos hd]; exact hd.le
    · rw [if_neg hd]

theorem runCands_bestDist_le (keep : ℚ → Bool) (dOf : Nat → Nat) :
    ∀ (l : List (Nat × String)) (st : BestSt),
      (runCands keep dOf l st).bestDist ≤ st.bestDist := by
  intro l
  induction l with
  | nil => intro st; exact le_refl _
  | cons c cs ih =>
    intro st
    rw [runCands_cons]
    exact (ih _).trans (stepCand_bestDist_le keep dOf st c)

theorem runCands_le_surv (keep : ℚ → Bool) (dOf : Nat → Nat) :
    ∀ (l : List (Nat × String)) (st : BestSt), ∀ s ∈ survivors keep l,
      (runCands keep dOf l st).bestDist ≤ dOf s.el := by
  intro l
  induction l with
  | nil => intro st s hs; simp [survivors] at hs
  | cons c cs ih =>
    intro st s hs
    rw [runCands_cons]
    cases hc : survCand keep c with
    | none =>
      rw [stepCand_of_none dOf st hc]
      exact ih st s (by rwa [survivors_cons_none cs hc] at hs)
    | some s0 =>
      rw [survivors_cons_some cs hc] at hs
      rcases List.mem_cons.1 hs with rfl | hs'
      · rw [stepCand_of_some dOf st hc]
        by_cases hd : dOf s.el < st.bestDist
        · rw [if_pos hd]
          exact (runCands_bestDist_le keep dOf cs _).trans (le_refl _)
        · rw [if_neg hd]
          exact (runCands_bestDist_le keep dOf cs _).trans (not_lt.1 hd)
      · exact ih _ s hs'

theorem runCands_shape (keep : ℚ → Bool) (dOf : Nat → Nat) :
    ∀ (l : List (Nat × String)) (st : BestSt),
      runCands keep dOf l st = st ∨
        ∃ s ∈ survivors keep l,
          runCands keep dOf l st = ⟨dOf s.el, some s.price, detectCurrency s.raw⟩ ∧
            dOf s.el < st.bestDist := by
  intro l
  induction l with
  | nil => intro st; exact .inl rfl
  | cons c cs ih =>
    intro st
    rw [runCands_cons]
    cases hc : survCand keep c with
    | none =>
      rw [stepCand_of_none dOf st hc]
      rcases ih st with h | ⟨s, hs, he, hd⟩
      · exact .inl h
      · exact .inr ⟨s, by rw [survivors_cons_none cs hc]; exact hs, he, hd⟩
    | some s0 =>
      rw [stepCand_of_some dOf st hc]
      by_cases hd : dOf s0.el < st.bestDist
      · rw [if_pos hd]
        rcases ih ⟨dOf s0.el, some s0.price, detectCurrency s0.raw⟩ with h | ⟨s, hs, he, hd'⟩
        · exact .inr ⟨s0, by rw [survivors_cons_some cs hc]; exact List.mem_cons_self _ _, h, hd⟩
        · exact .inr ⟨s, by rw [survivors_cons_some cs hc]; exact List.mem_cons_of_mem _ hs,
            he, lt_trans hd' hd⟩
      · rw [if_neg hd]
        rcases ih st with h | ⟨s, hs, he, hd'⟩
        · exact .inl h
        · exact .inr ⟨s, by rw [survivors_cons_some cs hc]; exact List.mem_cons_of_mem _ hs,
            he, hd'⟩

theorem runCands_init_none (keep : ℚ → Bool) (dOf : Nat → Nat) (l : List (Nat × String)) :
    stResult (runCands keep dOf l initSt) = none ↔
      ∀ s ∈ survivors keep l, 10001 ≤ dOf s.el := by
  constructor
  · intro hn s hs
    by_contra hlt
    rw [not_le] at hlt
    have hb := runCands_le_surv keep dOf l initSt s hs
    rcases runCands_shape keep dOf l initSt with h | ⟨s', hs', he, -⟩
    · rw [h] at hb
      have hb' : 10001 ≤ dOf s.el := hb
      omega
    · rw [he] at hn
      simp [stResult] at hn
  · intro hall
    rcases runCands_shape keep dOf l initSt with h | ⟨s, hs, -, hd⟩
    · rw [h]; rfl
    · have hd' : dOf s.el < 10001 := hd
      have := hall s hs
      omega

theorem runCands_init_some (keep : ℚ → Bool) (dOf : Nat → Nat) (l : List (Nat × String))
    (p : ℚ) (c : String) :
    stResult (runCands keep dOf l initSt) = some (p, c) →
      ∃ s ∈ survivors keep l,
        p = s.price ∧ c = detectCurrency s.raw ∧ keep s.price = true ∧
          ∀ s' ∈ survivors keep l, dOf s.el ≤ dOf s'.el := by
  intro h
  rcases runCands_shape keep dOf l initSt with he | ⟨s, hs, he, -⟩
  · rw [he] at h; simp [stResult, initSt] at h
  · have hmin : ∀ s' ∈ survivors keep l, dOf s.el ≤ dOf s'.el := by
      intro s' hs'
      have := runCands_le_surv keep dOf l initSt s' hs'
      rw [he] at this
      exact this
    rw [he] at h
    have h2 : (s.price, detectCurrency s.raw) = (p, c) := Option.some.inj h
    cases h2
    exact ⟨s, hs, rfl, rfl, (survivors_keep hs).2, hmin⟩

theorem runCands_stuck (keep : ℚ → Bool) :
    ∀ (l : List (Nat × String)) (st : BestSt), st.bestDist = 0 →
      runCands keep (fun _ => 0) l st = st := by
  intro l
  induction l with
  | nil => intro st _; rfl
  | cons c cs ih =>
    intro st h0
    rw [runCands_cons]
    cases hc : survCand keep c with
    | none => rw [stepCand_of_none _ st hc]; exact ih st h0
    | some s0 =>
      rw [stepCand_of_some _ st hc, if_neg (by omega)]
      exact ih st h0

theorem runCands_zero (keep : ℚ → Bool) :
    ∀ l : List (Nat × String),
      stResult (runCands keep (fun _ => 0) l initSt) =
        (survivors keep l).head?.map fun s => (s.price, detectCurrency s.raw) := by
  intro l
  induction l with
  | nil => rfl
  | cons c cs ih =>
    rw [runCands_cons]
    cases hc : survCand keep c with
    | none => rw [stepCand_of_none _ _ hc, survivors_cons_none cs hc]; exact ih
    | some s0 =>
      rw [stepCand_of_some _ _ hc, if_pos (by show (0 : Nat) < 10001; omega),
        runCands_stuck keep cs _ rfl, survivors_cons_some cs hc]
      rfl

theorem survivors_mem_src {keep : ℚ → Bool} {l : List (Nat × String)} {s : Cand}
    (hs : s ∈ survivors keep l) : (s.el, s.raw) ∈ l := by
  rw [survivors] at hs
  obtain ⟨c, hcl, hc⟩ := List.mem_filterMap.1 hs
  rw [survCand] at hc
  cases he : extractPriceFromText c.2 with
  | none => rw [he] at hc; simp at hc
  | some p =>
    rw [he, Option.some_bind] at hc
    by_cases hk : keep p
    · rw [if_pos hk] at hc
      obtain rfl := Option.some.inj hc
      exact hcl
    · rw [if_neg hk] at hc; simp at hc

/-! ## Claim C2 — the three sample parses -/

/-- Claim C2 (code bug on the third mapping): `"$1,234.56"` parses to
1234.56/USD and `"£999.99"` to 999.99/GBP as claimed, but `"€1.234,56"`
parses to 1.23456, not 1234.56 — line 98 of the source strips the comma
before the European-format check on line 100, so only one `.` remains and
the re-normalization never fires, contradicting the source's own comment
`€1.234,56 → 1234.56` (line 99). -/
theorem claim2_parser_mappings :
    extractPriceFromText "$1,234.56" = some 1234.56 ∧ detectCurrency "$1,234.56" = "USD" ∧
    extractPriceFromText "£999.99" = some 999.99 ∧ detectCurrency "£999.99" = "GBP" ∧
    detectCurrency "€1.234,56" = "EUR" ∧
    extractPriceFromText "€1.234,56" = some 1.23456 ∧
    extractPriceFromText "€1.234,56" ≠ some 1234.56 := by decide

/-! ## Claim C1 — strict positivity -/

/-- Claim C1 (counterexample): the structured-data strategy performs no
positivity check, so a JSON-LD offer price of `"-5"` flows through
`extractProduct` unchanged and the returned price is negative. -/
theorem claim1_counterexample :
    ((scrapeProduct "https://x/p" (some docNeg) "").map ScrapeResult.price) = some (-5) ∧
    ((tryJsonLd docNeg "https://x/p").map LdResult.price) = some (-5) ∧
    ¬ (0 : ℚ) < -5 := by decide

/-- Claim C1 (amended): the selector-heuristic and proximity-sweep
strategies do reject non-positive parsed prices, so any price they return is
strictly positive (the sweep's is moreover below 1,000,000); only the
structured-data strategy lacks the check. -/
theorem claim1_amended_heuristics_positive :
    (∀ (a : Arena) (anchor : Option Nat) (p : ℚ) (c : String),
      trySelectors a anchor = some (p, c) → 0 < p) ∧
    (∀ (a : Arena) (anchor : Option Nat) (p : ℚ) (c : String),
      tryProximitySweep a anchor = some (p, c) → 0 < p ∧ p < 1000000) := by
  constructor
  · intro a anchor p c h
    obtain ⟨s, -, rfl, -, hk, -⟩ := runCands_init_some _ _ _ _ _ h
    exact of_decide_eq_true hk
  · intro a anchor p c h
    obtain ⟨s, -, rfl, -, hk, -⟩ := runCands_init_some _ _ _ _ _ h
    exact of_decide_eq_true hk

theorem claim1_witness :
    trySelectors docSel (some 3) = some (49, "USD") ∧ (0 : ℚ) < 49 :=
  ⟨by decide, claim1_amended_heuristics_positive.1 docSel (some 3) 49 "USD" (by decide)⟩

/-! ## Claim C3 — the empty-hint anchor -/

/-- Claim C3 (counterexample): with an empty hint and no h1 in the document,
the anchor locator returns `None` (an absent anchor), not the tree root
(index 0) — `soup.find("h1")` has no root fallback. -/
theorem claim3_counterexample :
    findAnchorElement docNoH1 "" = none ∧ scrapeAnchor docNoH1 "" = none ∧
    findAnchorElement docNoH1 "" ≠ some 0 := by decide

/-- Claim C3 (amended): with an empty (or whitespace-only) hint the anchor
locator returns exactly `soup.find("h1")` — the first h1 in document order
when one exists, and an absent anchor (not the tree root) otherwise. -/
theorem claim3_amended (a : Arena) (hint : String) (h : pyStrip (strLower hint) = "") :
    findAnchorElement a hint = findFirstTag a "h1" ∧
    (findFirstTag a "h1" = none → findAnchorElement a hint = none) := by
  have h1 : findAnchorElement a hint = findFirstTag a "h1" := by
    simp [findAnchorElement, h]
  exact ⟨h1, fun hno => h1.trans hno⟩

theorem claim3_witness :
    pyStrip (strLower "") = "" ∧ findAnchorElement docSel "" = findFirstTag docSel "h1" :=
  ⟨by decide, (claim3_amended docSel "" (by decide)).1⟩

/-! ## Claim C4 — the missing-name fill that never happens -/

/-- Claim C4 (code bug): when the chosen JSON-LD Product has no `name`, the
returned result carries a null name even though the title extractor would
supply one — `result.setdefault("name", ...)` on line 417 never fires
because `_try_json_ld` always returns a dict that already contains the
`"name"` key (holding `None`), contradicting the orchestrator's documented
contract that `name` is a string. -/
theorem claim4_name_left_absent :
    ((scrapeProduct "https://x/p" (some doc4) "").map ScrapeResult.name) = some none ∧
    extractTitle doc4 = "Fancy Widget" ∧
    ((scrapeProduct "https://x/p" (some doc4) "").map ScrapeResult.price) = some 19.99 := by
  decide

/-! ## Claim C6 — the selector-heuristic extractor -/

/-- Claim C6 (amended): the selector extractor evaluates every match of
every selector in the pool; a returned price/currency pair always comes from
a positive-priced surviving candidate whose DOM distance to the resolved
anchor is minimal over all survivors; but absence means no survivor lies
within DOM distance 10,000 of the anchor (the loop's initial
`best_dist = 10_001` silently excludes farther candidates), not merely that
no positive-priced match exists. -/
theorem claim6_selector_extractor (a : Arena) (anchor : Option Nat) :
    (trySelectors a anchor = none ↔
      ∀ s ∈ survivors selKeep (selCands a),
        10001 ≤ distTo a (strategyAnchor a anchor) s.el) ∧
    (∀ (p : ℚ) (c : String), trySelectors a anchor = some (p, c) →
      ∃ s ∈ survivors selKeep (selCands a),
        p = s.price ∧ c = detectCurrency s.raw ∧ 0 < s.price ∧
          ∀ s' ∈ survivors selKeep (selCands a),
            distTo a (strategyAnchor a anchor) s.el ≤
              distTo a (strategyAnchor a anchor) s'.el) := by
  constructor
  · exact runCands_init_none selKeep _ _
  · intro p c h
    obtain ⟨s, hs, hp, hc, hk, hmin⟩ := runCands_init_some _ _ _ _ _ h
    exact ⟨s, hs, hp, hc, of_decide_eq_true hk, hmin⟩

theorem claim6_witness :
    trySelectors docSel (some 3) = some (49, "USD") ∧
    ∃ s ∈ survivors selKeep (selCands docSel),
      (49 : ℚ) = s.price ∧ "USD" = detectCurrency s.raw ∧ 0 < s.price ∧
        ∀ s' ∈ survivors selKeep (selCands docSel),
          distTo docSel (strategyAnchor docSel (some 3)) s.el ≤
            distTo docSel (strategyAnchor docSel (some 3)) s'.el :=
  ⟨by decide, (claim6_selector_extractor docSel (some 3)).2 49 "USD" (by decide)⟩

/-! ## Claim C7 — the proximity sweep -/

/-- Claim C7 (amended): every sweep survivor is a non-skipped tag with no
element children whose visible text is non-empty, at most 30 characters
long, and parses to a price strictly between 0 and 1,000,000; a returned
pair always comes from a survivor at minimal DOM distance to the anchor;
but when every survivor is farther than 10,000 edges from the anchor the
sweep returns absence instead of a minimal survivor (the `10_001` initial
best distance), so "returns a survivor" only holds when some survivor lies
within distance 10,000. -/
theorem claim7_sweep_extractor (a : Arena) (anchor : Option Nat) :
    (∀ s ∈ survivors sweepKeep (sweepCands a),
      skipTags.contains (tagOf a s.el) = false ∧ childrenOf a s.el = [] ∧
        s.raw = getText a " " s.el ∧ ¬ s.raw = "" ∧ s.raw.length ≤ 30 ∧
        0 < s.price ∧ s.price < 1000000) ∧
    (tryProximitySweep a anchor = none ↔
      ∀ s ∈ survivors sweepKeep (sweepCands a),
        10001 ≤ distTo a (strategyAnchor a anchor) s.el) ∧
    (∀ (p : ℚ) (c : String), tryProximitySweep a anchor = some (p, c) →
      ∃ s ∈ survivors sweepKeep (sweepCands a),
        p = s.price ∧ c = detectCurrency s.raw ∧
          ∀ s' ∈ survivors sweepKeep (sweepCands a),
            distTo a (strategyAnchor a anchor) s.el ≤
              distTo a (strategyAnchor a anchor) s'.el) := by
  refine ⟨?_, ?_, ?_⟩
  · intro s hs
    have hsrc := survivors_mem_src hs
    have hkp := survivors_keep hs
    rw [sweepCands] at hsrc
    obtain ⟨i, hi, hpair⟩ := List.mem_map.1 hsrc
    obtain ⟨-, hpred⟩ := List.mem_filter.1 hi
    have hieq : i = s.el := congrArg Prod.fst hpair
    subst hieq
    have htext : getText a " " s.el = s.raw := congrArg Prod.snd hpair
    rw [htext] at hpred
    simp only [Bool.and_eq_true, Bool.not_eq_true', decide_eq_true_eq,
      decide_eq_false_iff_not] at hpred
    obtain ⟨⟨hskip, hleaf⟩, hne, hlen⟩ := hpred
    have hb := of_decide_eq_true hkp.2
    exact ⟨hskip, List.isEmpty_iff.1 hleaf, htext.symm, hne, hlen, hb.1, hb.2⟩
  · exact runCands_init_none sweepKeep _ _
  · intro p c h
    obtain ⟨s, hs, hp, hc, -, hmin⟩ := runCands_init_some _ _ _ _ _ h
    exact ⟨s, hs, hp, hc, hmin⟩

theorem claim7_witness :
    tryProximitySweep docSweep (some 4) = some (12.5, "USD") ∧
    ∃ s ∈ survivors sweepKeep (sweepCands docSweep),
      (12.5 : ℚ) = s.price ∧ "USD" = detectCurrency s.raw ∧
        ∀ s' ∈ survivors sweepKeep (sweepCands docSweep),
          distTo docSweep (strategyAnchor docSweep (some 4)) s.el ≤
            distTo docSweep (strategyAnchor docSweep (some 4)) s'.el :=
  ⟨by decide, (claim7_sweep_extractor docSweep (some 4)).2.2 12.5 "USD" (by decide)⟩

/-! ## Claim C10 — behaviour with an absent anchor -/

/-- Claim C10: when the hint is empty and the document has no h1, the
resolved anchor is absent; both heuristic strategies then score every
candidate at DOM distance 0, so each returns its first surviving
(positive-priced) candidate in selector-pool/scan order. -/
theorem claim10_absent_anchor (a : Arena) (h : findFirstTag a "h1" = none) :
    scrapeAnchor a "" = none ∧
    (∀ i, distTo a (strategyAnchor a none) i = 0) ∧
    trySelectors a none =
      (survivors selKeep (selCands a)).head?.map (fun s => (s.price, detectCurrency s.raw)) ∧
    tryProximitySweep a none =
      (survivors sweepKeep (sweepCands a)).head?.map
        (fun s => (s.price, detectCurrency s.raw)) := by
  have ha : strategyAnchor a none = none := by simp [strategyAnchor, h]
  refine ⟨by simp [scrapeAnchor, h], fun i => by rw [ha]; rfl, ?_, ?_⟩
  · show stResult (runCands selKeep (distTo a (strategyAnchor a none)) (selCands a) initSt) = _
    rw [ha]
    exact runCands_zero selKeep (selCands a)
  · show stResult
        (runCands sweepKeep (distTo a (strategyAnchor a none)) (sweepCands a) initSt) = _
    rw [ha]
    exact runCands_zero sweepKeep (sweepCands a)

theorem claim10_witness :
    findFirstTag docNoH1 "h1" = none ∧
    trySelectors docNoH1 none = some (3, "USD") ∧
    trySelectors docNoH1 none =
      (survivors selKeep (selCands docNoH1)).head?.map
        (fun s => (s.price, detectCurrency s.raw)) :=
  ⟨by decide, by decide, (claim10_absent_anchor docNoH1 (by decide)).2.2.1⟩

/-! ## Claim C9 — failures are absorbed, not propagated

In this embedding every Python operation that can raise is `Option`-valued
and every `try/except` / `continue` is a `none` branch, so `scrapeProduct`
is a total function: nothing can escape as an exception.  The theorem pins
down the three behaviours the claim describes: a failed/empty fetch gives
an absent result, a malformed structured-data block is skipped without
affecting the others, and exhausting all three strategies gives an absent
result rather than an error. -/

/-- Claim C9: failed fetches, malformed blocks and empty strategy results
all collapse to explicit absence. -/
theorem claim9_failures_absorbed :
    (∀ url productName, scrapeProduct url none productName = none) ∧
    (∀ pagePath blockText rest, ldEntryCandidate pagePath blockText = none →
      (blockText :: rest).filterMap (ldEntryCandidate pagePath) =
        rest.filterMap (ldEntryCandidate pagePath)) ∧
    (∀ url soup productName,
      tryJsonLd soup url = none →
      trySelectors soup (scrapeAnchor soup productName) = none →
      tryProximitySweep soup (scrapeAnchor soup productName) = none →
      scrapeProduct url (some soup) productName = none) := by
  refine ⟨?_, ?_, ?_⟩
  · intro url productName
    unfold scrapeProduct
    by_cases hc : ¬((urlSchemeNetloc url).1 = "http" ∨ (urlSchemeNetloc url).1 = "https") ∨
        (urlSchemeNetloc url).2 = ""
    · rw [if_pos hc]
    · rw [if_neg hc]
  · intro pagePath blockText rest h
    rw [List.filterMap_cons, h]
  · intro url soup productName h1 h2 h3
    unfold scrapeProduct
    by_cases hc : ¬((urlSchemeNetloc url).1 = "http" ∨ (urlSchemeNetloc url).1 = "https") ∨
        (urlSchemeNetloc url).2 = ""
    · rw [if_pos hc]
    · rw [if_neg hc]
      simp only [h1, h2, h3]

theorem claim9_witness :
    scrapeProduct "https://x/p" none "" = none ∧
    ldEntryCandidate "/p" "\x7bnot json" = none ∧
    (["\x7bnot json"].filterMap (ldEntryCandidate "/p") = ([] : List LdCandidate)) ∧
    scrapeProduct "https://x/p" (some docBad) "" = none :=
  ⟨claim9_failures_absorbed.1 "https://x/p" "",
    rfl,
    claim9_failures_absorbed.2.1 "/p" "\x7bnot json" [] rfl,
    claim9_failures_absorbed.2.2 "https://x/p" docBad "" rfl (by decide) (by decide)⟩

/-! ## Claim C5 — the structured-data choice rule -/

theorem find?_eq_filter_head? {α : Type} (p : α → Bool) :
    ∀ l : List α, l.find? p = (l.filter p).head? := by
  intro l
  induction l with
  | nil => rfl
  | cons x xs ih =>
    by_cases hx : p x
    · rw [List.find?_cons_of_pos _ hx, List.filter_cons_of_pos hx]
      rfl
    · rw [List.find?_cons_of_neg _ hx, List.filter_cons_of_neg hx]
      exact ih

/-- Claim C5 (amended): the structured-data extractor returns absence
exactly when there is no valid Product candidate; otherwise it returns the
first candidate marked as URL-matching — where a match additionally
requires both the request path and the declared path to be non-empty after
trailing-slash stripping — and, when no candidate matches, the first valid
candidate in document order. -/
theorem claim5_structured_choice (a : Arena) (pageUrl : String) :
    (tryJsonLd a pageUrl = none ↔ ldCandidates a pageUrl = []) ∧
    (∀ r, tryJsonLd a pageUrl = some r →
      ∃ c, (((ldCandidates a pageUrl).find? (·.urlMatch) = some c) ∨
          ((∀ c' ∈ ldCandidates a pageUrl, c'.urlMatch = false) ∧
            (ldCandidates a pageUrl).head? = some c)) ∧
        r.name = c.name ∧ r.price = c.price ∧ r.currency = c.currency) := by
  have hT : tryJsonLd a pageUrl =
      (match (ldCandidates a pageUrl).filter (·.urlMatch) with
       | c :: _ => some ⟨c.name, c.price, c.currency⟩
       | [] => (ldCandidates a pageUrl).head?.map fun c => ⟨c.name, c.price, c.currency⟩) :=
    rfl
  constructor
  · rw [hT]
    cases hf : (ldCandidates a pageUrl).filter (·.urlMatch) with
    | cons c cs =>
      constructor
      · intro h; simp at h
      · intro h
        rw [h] at hf
        simp at hf
    | nil =>
      cases hc : ldCandidates a pageUrl with
      | nil => simp
      | cons d ds => simp
  · intro r h
    rw [hT] at h
    cases hf : (ldCandidates a pageUrl).filter (·.urlMatch) with
    | cons c cs =>
      rw [hf] at h
      obtain rfl := (Option.some.inj h).symm
      refine ⟨c, .inl ?_, rfl, rfl, rfl⟩
      rw [find?_eq_filter_head?, hf]
      rfl
    | nil =>
      rw [hf] at h
      have h' : (ldCandidates a pageUrl).head?.map
          (fun c => (⟨c.name, c.price, c.currency⟩ : LdResult)) = some r := h
      cases hh : (ldCandidates a pageUrl).head? with
      | none => rw [hh] at h'; simp at h'
      | some c =>
        rw [hh] at h'
        obtain rfl := (Option.some.inj h').symm
        refine ⟨c, .inr ⟨?_, rfl⟩, rfl, rfl, rfl⟩
        intro c' hc'
        have := List.filter_eq_nil_iff.1 hf c' hc'
        simpa using this

/-- Claim C5 (counterexample): fetched at `https://x` (request path `""`),
the second Product of `doc5` declares `"url": "/"`, whose stripped path `""`
equals the stripped request path — yet the extractor returns the first
candidate (price 1), because the source's `url_match` additionally requires
both paths to be non-empty, so no entry ever matches an empty request path. -/
theorem claim5_counterexample :
    ((ldCandidates doc5 "https://x").map (·.urlMatch)) = [false, false] ∧
    ((ldCandidates doc5 "https://x").map (·.price)) = [1, 2] ∧
    ((tryJsonLd doc5 "https://x").map LdResult.price) = some 1 ∧
    rstripSlash (urlPath "https://x") = "" ∧ rstripSlash "/" = "" := by decide

theorem claim5_witness :
    ∃ c, (((ldCandidates docLd "https://x/widget").find? (·.urlMatch) = some c) ∨
        ((∀ c' ∈ ldCandidates docLd "https://x/widget", c'.urlMatch = false) ∧
          (ldCandidates docLd "https://x/widget").head? = some c)) ∧
      (⟨some "Widget", 19.99, .str "USD"⟩ : LdResult).name = c.name ∧
      (⟨some "Widget", 19.99, .str "USD"⟩ : LdResult).price = c.price ∧
      (⟨some "Widget", 19.99, .str "USD"⟩ : LdResult).currency = c.currency :=
  (claim5_structured_choice docLd "https://x/widget").2 ⟨some "Widget", 19.99, .str "USD"⟩
    (by rfl)

/-! ## The deep document: node, traversal and chain characterizations -/

theorem deep_nodes_len : deepDoc.nodes.length = deepLen + 3 := by
  show (_ :: _ :: ((List.range deepLen).map chainDiv ++ [h1Node])).length = deepLen + 3
  rw [List.length_cons, List.length_cons, List.length_append, List.length_map,
    List.length_range]
  rfl

theorem deep_get_div {k : Nat} (h : k < deepLen) :
    deepDoc.get? (2 + k) = some (chainDiv k) := by
  show (_ :: _ :: ((List.range deepLen).map chainDiv ++ [h1Node])).get? (2 + k) = _
  rw [show 2 + k = (k + 1) + 1 from by omega, List.get?_cons_succ, List.get?_cons_succ,
    List.get?_eq_getElem?, List.getElem?_append, if_pos (by simpa using h),
    List.getElem?_map, List.getElem?_range h]
  rfl

theorem deep_get_h1 : deepDoc.get? (2 + deepLen) = some h1Node := by
  show (_ :: _ :: ((List.range deepLen).map chainDiv ++ [h1Node])).get? (2 + deepLen) = _
  rw [show 2 + deepLen = (deepLen + 1) + 1 from by omega, List.get?_cons_succ,
    List.get?_cons_succ, List.get?_eq_getElem?,
    List.getElem?_append_right (by simp), List.length_map, List.length_range,
    Nat.sub_self]
  rfl

theorem deep_children {k : Nat} (h : k < deepLen) :
    childrenOf deepDoc (2 + k) = [3 + k] := by
  rw [childrenOf, deep_get_div h]; rfl

theorem deep_children_h1 : childrenOf deepDoc (2 + deepLen) = [] := by
  rw [childrenOf, deep_get_h1]; rfl

theorem deep_parent {k : Nat} (hk : k ≤ deepLen) :
    parentOf deepDoc (2 + k) = some (if k = 0 then 0 else 1 + k) := by
  rcases hk.lt_or_eq with h | rfl
  · rw [parentOf, deep_get_div h]; rfl
  · rw [parentOf, deep_get_h1, if_neg (by decide : ¬deepLen = 0)]; rfl

theorem deep_attr_none {k : Nat} (hk : k ≤ deepLen) (key : String) :
    attrOf deepDoc (2 + k) key = none := by
  rcases hk.lt_or_eq with h | rfl
  · rw [attrOf, deep_get_div h]; rfl
  · rw [attrOf, deep_get_h1]; rfl

theorem deep_tag {k : Nat} (hk : k ≤ deepLen) :
    tagOf deepDoc (2 + k) = "div" ∨ tagOf deepDoc (2 + k) = "h1" := by
  rcases hk.lt_or_eq with h | rfl
  · left; rw [tagOf, deep_get_div h]; rfl
  · right; rw [tagOf, deep_get_h1]; rfl

theorem deep_matches_false {k : Nat} (hk : k ≤ deepLen) :
    ∀ sm ∈ priceSelectors, matchesSel deepDoc (2 + k) sm.1 = false := by
  intro sm hsm
  have ha := deep_attr_none hk
  fin_cases hsm <;> simp [matchesSel, matchesCompound, matchesSimple, ha]

theorem deep_walk : ∀ f k, k ≤ deepLen → deepLen - k < f →
    walkAll deepDoc f (2 + k) = (List.range (deepLen + 1 - k)).map (fun j => 2 + k + j) := by
  intro f
  induction f with
  | zero => intro k _ hf; omega
  | succ f ih =>
    intro k hk hf
    show (2 + k) :: (childrenOf deepDoc (2 + k)).flatMap (walkAll deepDoc f) = _
    rcases hk.lt_or_eq with h | rfl
    · rw [deep_children h, List.flatMap_cons, List.flatMap_nil, List.append_nil,
        show 3 + k = 2 + (k + 1) from by omega, ih (k + 1) (by omega) (by omega),
        show deepLen + 1 - (k + 1) = deepLen - k from by omega,
        show deepLen + 1 - k = (deepLen - k) + 1 from by omega,
        List.range_succ_eq_map, List.map_cons, List.map_map]
      refine congrArg₂ _ (by omega) (List.map_congr_left fun j _ => ?_)
      show 2 + (k + 1) + j = 2 + k + (j + 1)
      omega
    · rw [deep_children_h1, List.flatMap_nil,
        show deepLen + 1 - deepLen = 1 from by omega]
      rfl

theorem deep_allElems :
    allElems deepDoc = 1 :: (List.range (deepLen + 1)).map (fun j => 2 + j) := by
  have hchild : childrenOf deepDoc 0 = [1, 2] := rfl
  have h2 := deep_walk (deepLen + 3) 0 (by omega) (by omega)
  rw [Nat.sub_zero] at h2
  have h2' : walkAll deepDoc (deepLen + 3) 2 =
      (List.range (deepLen + 1)).map (fun j => 2 + j) := by
    rw [show (2 : Nat) = 2 + 0 from rfl, h2]
  have h1 : walkAll deepDoc (deepLen + 3) 1 = [1] := by
    show (1 : Nat) :: (childrenOf deepDoc 1).flatMap (walkAll deepDoc (deepLen + 2)) = [1]
    rfl
  rw [allElems, hchild, deep_nodes_len, List.flatMap_cons, List.flatMap_cons,
    List.flatMap_nil, List.append_nil, h1, h2']
  rfl

theorem flatMap_of_select_singleton (a : Arena) (el : Nat) :
    ∀ pool : List (Sel × String),
      (∀ sm ∈ pool, select a sm.1 = if matchesSel a el sm.1 then [el] else []) →
      pool.flatMap (fun sm => (select a sm.1).map fun i => (i, rawOf a sm.2 i)) =
        (pool.filter fun sm => matchesSel a el sm.1).map fun sm => (el, rawOf a sm.2 el) := by
  intro pool
  induction pool with
  | nil => intro _; rfl
  | cons sm sms ih =>
    intro h
    rw [List.flatMap_cons, h sm (List.mem_cons_self _ _),
      ih fun x hx => h x (List.mem_cons_of_mem _ hx), List.filter_cons]
    by_cases hm : matchesSel a el sm.1
    · rw [if_pos hm, if_pos hm, List.map_cons]
      rfl
    · rw [if_neg hm, if_neg (by simpa using hm)]
      rfl

theorem deep_select : ∀ sm ∈ priceSelectors,
    select deepDoc sm.1 = if matchesSel deepDoc 1 sm.1 then [1] else [] := by
  intro sm hsm
  rw [select, deep_allElems, List.filter_cons]
  have hnil : ((List.range (deepLen + 1)).map (fun j => 2 + j)).filter
      (fun i => matchesSel deepDoc i sm.1) = [] := by
    rw [List.filter_eq_nil_iff]
    intro i hi
    obtain ⟨j, hj, rfl⟩ := List.mem_map.1 hi
    have hj' : j ≤ deepLen := by
      have := List.mem_range.1 hj
      omega
    simp [deep_matches_false hj' sm hsm]
  rw [hnil]

theorem deep_raw : getText deepDoc " " 1 = "$5.00" := by
  rw [getText, deep_nodes_len]
  decide

theorem deep_selCands : selCands deepDoc = [(1, "$5.00")] := by
  have hraw2 : rawOf deepDoc "text" 1 = getText deepDoc " " 1 := by
    unfold rawOf
    rw [if_pos rfl]
  rw [selCands, flatMap_of_select_singleton deepDoc 1 priceSelectors deep_select,
    show (priceSelectors.filter fun sm => matchesSel deepDoc 1 sm.1) =
      [(.cpd [.classHas "price"], "text")] from by decide, List.map_cons, List.map_nil]
  rw [hraw2, deep_raw]

theorem deep_own_h1 : ownTextOf deepDoc (2 + deepLen) = "" := by
  rw [ownTextOf, deep_get_h1]; rfl

theorem deep_text_h1 : getText deepDoc " " (2 + deepLen) = "" := by
  rw [getText, deep_nodes_len]
  show String.intercalate " "
      ((if pyStrip (ownTextOf deepDoc (2 + deepLen)) = "" then []
        else [pyStrip (ownTextOf deepDoc (2 + deepLen))]) ++
        (childrenOf deepDoc (2 + deepLen)).flatMap (textPieces deepDoc (deepLen + 2))) = ""
  rw [deep_own_h1, deep_children_h1]
  rfl

theorem deep_sweepCands : sweepCands deepDoc = [(1, "$5.00")] := by
  rw [sweepCands, deep_allElems, List.filter_cons]
  have hnil : ((List.range (deepLen + 1)).map (fun j => 2 + j)).filter
      (fun i =>
        !skipTags.contains (tagOf deepDoc i) && (childrenOf deepDoc i).isEmpty &&
          (let t := getText deepDoc " " i
           !decide (t = "") && decide (t.length ≤ 30))) = [] := by
    rw [List.filter_eq_nil_iff]
    intro i hi
    obtain ⟨j, hj, rfl⟩ := List.mem_map.1 hi
    have hj' : j ≤ deepLen := by
      have := List.mem_range.1 hj
      omega
    rcases hj'.lt_or_eq with h | rfl
    · simp [deep_children h]
    · simp [deep_text_h1]
  have hcond : (!skipTags.contains (tagOf deepDoc 1) && (childrenOf deepDoc 1).isEmpty &&
      (let t := getText deepDoc " " 1
       !decide (t = "") && decide (t.length ≤ 30))) = true := by
    rw [show (let t := getText deepDoc " " 1
          !decide (t = "") && decide (t.length ≤ 30)) =
        (!decide (getText deepDoc " " 1 = "") &&
          decide ((getText deepDoc " " 1).length ≤ 30)) from rfl, deep_raw]
    decide
  rw [hnil, if_pos hcond, List.map_cons, List.map_nil, deep_raw]

theorem deep_chain : ∀ k, k ≤ deepLen →
    chain deepDoc (2 + k) = (List.range (k + 1)).map (fun j => 2 + (k - j)) ++ [0] := by
  intro k
  induction k with
  | zero =>
    intro _
    rw [chain_unfold, deep_parent (by omega : (0 : Nat) ≤ deepLen)]
    rw [if_pos rfl, Option.getD_some, if_pos (by omega)]
    rfl
  | succ k ih =>
    intro hk
    rw [chain_unfold, deep_parent hk]
    rw [if_neg (Nat.succ_ne_zero k), Option.getD_some]
    rw [if_pos (by omega : 1 + (k + 1) < 2 + (k + 1))]
    rw [show 1 + (k + 1) = 2 + k from by omega]
    rw [ih (by omega)]
    conv_rhs => rw [List.range_succ_eq_map, List.map_cons, List.map_map, List.cons_append]
    refine congrArg₂ _ (by show 2 + (k + 1) = 2 + (k + 1 - 0); omega)
      (congrArg₂ _ (List.map_congr_left fun j _ => ?_) rfl)
    show 2 + (k - j) = 2 + (k + 1 - (j + 1))
    omega

theorem searchCommon_skip (ca : List Nat) :
    ∀ (pre rest : List Nat) (d : Nat), (∀ x ∈ pre, x ∉ ca) →
      searchCommon ca (pre ++ rest) d = searchCommon ca rest (d + pre.length) := by
  intro pre
  induction pre with
  | nil => intro rest d _; rfl
  | cons x xs ih =>
    intro rest d h
    rw [List.cons_append]
    show (if x ∈ ca then ca.indexOf x + d else searchCommon ca (xs ++ rest) (d + 1)) = _
    rw [if_neg (h x (List.mem_cons_self _ _)),
      ih rest (d + 1) fun y hy => h y (List.mem_cons_of_mem _ hy), List.length_cons]
    exact congrArg (searchCommon ca rest) (by omega)

theorem deep_dist : domDistance deepDoc 1 deepAnchor = deepLen + 2 := by
  have hc1 : chain deepDoc 1 = [1, 0] := by decide
  have hc2 := deep_chain deepLen (le_refl _)
  show searchCommon (chain deepDoc 1) (chain deepDoc (2 + deepLen)) 0 = deepLen + 2
  rw [hc1, hc2, searchCommon_skip _ _ _ _ ?notin]
  case notin =>
    intro x hx
    obtain ⟨j, -, rfl⟩ := List.mem_map.1 hx
    intro hmem
    rcases List.mem_cons.1 hmem with h | h
    · omega
    · rcases List.mem_cons.1 h with h' | h'
      · omega
      · simp at h'
  rw [List.length_map, List.length_range]
  show (if (0 : Nat) ∈ [1, 0] then List.indexOf 0 [1, 0] + (0 + (deepLen + 1))
    else searchCommon [1, 0] [] (0 + (deepLen + 1) + 1)) = deepLen + 2
  rw [if_pos (by decide)]
  rw [show List.indexOf 0 [1, 0] = 1 from by decide]
  omega

/-- Claim C6 (counterexample): in a document whose only selector-matched,
positive-priced element sits 10,001 tree edges away from the anchor, the
selector extractor returns absence even though a positive-priced match
exists — refuting "returns absence exactly when no selector yields a
positive-priced match". -/
theorem claim6_counterexample :
    (∃ s ∈ survivors selKeep (selCands deepDoc), 0 < s.price) ∧
    trySelectors deepDoc (some deepAnchor) = none := by
  have hsurv : survivors selKeep (selCands deepDoc) = [⟨1, "$5.00", 5⟩] := by
    rw [deep_selCands]; decide
  constructor
  · exact ⟨⟨1, "$5.00", 5⟩, by rw [hsurv]; exact List.mem_singleton.2 rfl, by norm_num⟩
  · show stResult (runCands selKeep (distTo deepDoc (strategyAnchor deepDoc (some deepAnchor)))
      (selCands deepDoc) initSt) = none
    rw [runCands_init_none]
    intro s hs
    rw [hsurv] at hs
    obtain rfl := List.mem_singleton.1 hs
    show 10001 ≤ distTo deepDoc (strategyAnchor deepDoc (some deepAnchor)) 1
    rw [show distTo deepDoc (strategyAnchor deepDoc (some deepAnchor)) 1 =
      domDistance deepDoc 1 deepAnchor from rfl, deep_dist]
    decide

/-- Claim C7 (counterexample): the sweep's only survivor (leaf text
`"$5.00"`, price strictly between 0 and 1,000,000) sits 10,001 edges from
the anchor, and the sweep returns absence instead of that minimal-distance
survivor. -/
theorem claim7_counterexample :
    (∃ s ∈ survivors sweepKeep (sweepCands deepDoc), 0 < s.price ∧ s.price < 1000000) ∧
    tryProximitySweep deepDoc (some deepAnchor) = none := by
  have hsurv : survivors sweepKeep (sweepCands deepDoc) = [⟨1, "$5.00", 5⟩] := by
    rw [deep_sweepCands]; decide
  constructor
  · exact ⟨⟨1, "$5.00", 5⟩, by rw [hsurv]; exact List.mem_singleton.2 rfl, by norm_num⟩
  · show stResult (runCands sweepKeep (distTo deepDoc (strategyAnchor deepDoc (some deepAnchor)))
      (sweepCands deepDoc) initSt) = none
    rw [runCands_init_none]
    intro s hs
    rw [hsurv] at hs
    obtain rfl := List.mem_singleton.1 hs
    show 10001 ≤ distTo deepDoc (strategyAnchor deepDoc (some deepAnchor)) 1
    rw [show distTo deepDoc (strategyAnchor deepDoc (some deepAnchor)) 1 =
      domDistance deepDoc 1 deepAnchor from rfl, deep_dist]
    decide

end Scraper
